import Mathlib

/-!
Verification development for the luciola anime-library automation service.

The definitions below are a shallow embedding of the relevant parts of the
Python sources:

* `app/services/matcher.py`   — title/episode parsing (regex engine modelled
  character by character, with Python `re` leftmost search and greedy
  backtracking semantics for the exact patterns used by the source);
* `app/services/anime_db.py`  — metadata resolver episode-row synchronization;
* `app/services/pipeline.py`  — release pipeline skip gate and the two-pass
  selection / enqueue loops;
* `app/services/hash_manifest.py` — per-series manifest consistency check;
* `app/services/organizer.py` — display-title normalization;
* `app/services/reconciler.py` — episode-table effect of organizing files and
  the manifest gate before organizing;
* `app/services/job_runner.py` — the watchdog applied by `JobRunner.get`;
* `app/api/routes.py`         — `show_status` and `add_show` handlers.

Machine integers of the source are modelled as `Nat`/`Int`; Python `None` as
`Option`; Python truthiness of an optional integer `x` as `x.getD 0 ≠ 0` and
of a string as `≠ ""`.  Database tables are lists of rows; in-place row
mutation is modelled by returning the updated list.  Network and filesystem
effects are parameters (oracles) of the embedded functions.
-/

namespace Luciola

/-! ### Character classes.

Python `re` is Unicode-aware: `\w` covers `[A-Za-z0-9_]` plus all Unicode
word characters.  The titles handled by this code base are ASCII plus the
Japanese/Chinese ranges (kana U+3040–U+30FF, CJK ideographs U+3400–U+9FFF),
so the word class is modelled on exactly those ranges. -/

def isWordChar (c : Char) : Bool :=
  c.isAlphanum || c == '_' ||
    (0x3040 ≤ c.toNat && c.toNat ≤ 0x30ff) ||
    (0x3400 ≤ c.toNat && c.toNat ≤ 0x9fff)

def isSpaceChar (c : Char) : Bool := c.isWhitespace

def isDigitChar (c : Char) : Bool := c.isDigit

/-- Numeric value of a digit string, as Python `int` on a decimal literal. -/
def digitsToNat (l : List Char) : Nat :=
  l.foldl (fun a c => a * 10 + (c.toNat - 48)) 0

/-- Wordness of the character just before the current position (`none` at the
start of the string behaves as a non-word character for `\b`). -/
def wordish : Option Char → Bool
  | none => false
  | some c => isWordChar c

/-- A `\b` placed right after a digit group: the next character must not be a
word character (or the string must end). -/
def boundaryAfter : List Char → Bool
  | [] => true
  | c :: _ => !isWordChar c

/-- First success of `f` over a list of alternatives, in order — the order in
which a backtracking regex engine tries them. -/
def firstSome : List α → (α → Option β) → Option β
  | [], _ => none
  | a :: rest, f =>
    match f a with
    | some b => some b
    | none => firstSome rest f

/-- Candidate splits for a greedy `\d{1,k}`: the leading digit run capped at
`k`, longest first.  Empty when no leading digit exists (the group must
consume at least one digit). -/
def digitSplits (k : Nat) (l : List Char) : List (List Char × List Char) :=
  let run := l.takeWhile isDigitChar
  let n := min k run.length
  (List.range n).map (fun i => (l.take (n - i), l.drop (n - i)))

/-- Candidate remainders for a greedy optional single character `p?`: with the
character consumed first (when it is present), then without. -/
def optSplits (p : Char → Bool) (l : List Char) : List (List Char) :=
  match l with
  | c :: r => if p c then [r, c :: r] else [c :: r]
  | [] => [[]]

/-! ### `matcher.extract_episode_no` — the four explicit patterns, in source
order, each searched with `re.IGNORECASE`. -/

/-- Pattern `\bS\d{1,2}E(\d{1,3})\b` tried at one position. -/
def matchP1At (prev : Option Char) (l : List Char) : Option Nat :=
  if wordish prev then none
  else
    match l with
    | [] => none
    | c :: rest =>
      if c.toLower == 's' then
        firstSome (digitSplits 2 rest) (fun d1 =>
          match d1.2 with
          | [] => none
          | e :: r2 =>
            if e.toLower == 'e' then
              firstSome (digitSplits 3 r2) (fun g =>
                if boundaryAfter g.2 then some (digitsToNat g.1) else none)
            else none)
      else none

/-- Tail `\s?0?(\d{1,3})\b` shared by both alternatives of pattern 2. -/
def matchP2Tail (l : List Char) : Option Nat :=
  firstSome (optSplits isSpaceChar l) (fun r1 =>
    firstSome (optSplits (· == '0') r1) (fun r2 =>
      firstSome (digitSplits 3 r2) (fun g =>
        if boundaryAfter g.2 then some (digitsToNat g.1) else none)))

/-- Pattern `\b(?:E|EP)\s?0?(\d{1,3})\b` tried at one position; the `E`
alternative is tried in full before `EP`, as Python does. -/
def matchP2At (prev : Option Char) (l : List Char) : Option Nat :=
  if wordish prev then none
  else
    match l with
    | [] => none
    | c :: rest =>
      if c.toLower == 'e' then
        match matchP2Tail rest with
        | some v => some v
        | none =>
          match rest with
          | p :: rest2 => if p.toLower == 'p' then matchP2Tail rest2 else none
          | [] => none
      else none

/-- Pattern `第\s?0?(\d{1,3})\s?[话話集]` tried at one position. -/
def matchP3At (l : List Char) : Option Nat :=
  match l with
  | [] => none
  | c :: rest =>
    if c == '第' then
      firstSome (optSplits isSpaceChar rest) (fun r1 =>
        firstSome (optSplits (· == '0') r1) (fun r2 =>
          firstSome (digitSplits 3 r2) (fun g =>
            firstSome (optSplits isSpaceChar g.2) (fun r4 =>
              match r4 with
              | d :: _ =>
                if d == '话' || d == '話' || d == '集' then some (digitsToNat g.1)
                else none
              | [] => none))))
    else none

/-- Candidate remainders for the greedy optional `(?:v\d+)?` (a shortened
digit run never helps: the character after it would be a digit, which the
following `(?:\]|\s|$)` cannot accept, so only the maximal run is tried). -/
def vSplits (l : List Char) : List (List Char) :=
  match l with
  | c :: r =>
    if c.toLower == 'v' then
      let run := r.takeWhile isDigitChar
      if run.isEmpty then [c :: r] else [r.drop run.length, c :: r]
    else [c :: r]
  | [] => [[]]

/-- Pattern `(?:\[|\s|-)0?(\d{1,3})(?:v\d+)?(?:\]|\s|$)` tried at one
position. -/
def matchP4At (l : List Char) : Option Nat :=
  match l with
  | [] => none
  | c :: rest =>
    if c == '[' || isSpaceChar c || c == '-' then
      firstSome (optSplits (· == '0') rest) (fun r1 =>
        firstSome (digitSplits 3 r1) (fun g =>
          firstSome (vSplits g.2) (fun r3 =>
            match r3 with
            | [] => some (digitsToNat g.1)
            | d :: _ =>
              if d == ']' || isSpaceChar d then some (digitsToNat g.1) else none)))
    else none

/-- Leftmost `re.search`: try the position matcher at every start position,
left to right, threading the previous character for `\b` checks. -/
def searchWith (f : Option Char → List Char → Option Nat) :
    Option Char → List Char → Option Nat
  | prev, [] => f prev []
  | prev, c :: rest =>
    match f prev (c :: rest) with
    | some v => some v
    | none => searchWith f (some c) rest

/-- The resolution/codec numbers the last-resort scan rejects. -/
def badNumber (n : Nat) : Bool :=
  n == 264 || n == 265 || n == 480 || n == 540 || n == 576 ||
    n == 720 || n == 1080 || n == 1440 || n == 2160

/-- The last-resort `re.finditer(r"\b(\d{1,4})\b", title)` loop: walk the
matches left to right (non-overlapping, resuming after each match) and return
the first number that is not a known resolution/codec, not a year in
`[1900, 2100]`, and lies in `[1, 300]`. -/
def finditerEp : Nat → Option Char → List Char → Option Nat
  | 0, _, _ => none
  | _ + 1, _, [] => none
  | fuel + 1, prev, c :: rest =>
    if !wordish prev && isDigitChar c then
      match firstSome (digitSplits 4 (c :: rest))
          (fun g => if boundaryAfter g.2 then some g else none) with
      | some g =>
        let n := digitsToNat g.1
        if badNumber n then finditerEp fuel (g.1.getLast?.orElse (fun _ => some c)) g.2
        else if 1900 ≤ n && n ≤ 2100 then
          finditerEp fuel (g.1.getLast?.orElse (fun _ => some c)) g.2
        else if 1 ≤ n && n ≤ 300 then some n
        else finditerEp fuel (g.1.getLast?.orElse (fun _ => some c)) g.2
      | none => finditerEp fuel (some c) rest
    else finditerEp fuel (some c) rest

/-- `if m: ep = int(m.group(1)); if 1 <= ep <= 300: return ep` — an in-range
first match returns; a found but out-of-range match falls through to the next
pattern (the source never retries later matches of the same pattern). -/
def stepPattern (found : Option Nat) (next : Unit → Option Nat) : Option Nat :=
  match found with
  | some v => if 1 ≤ v && v ≤ 300 then some v else next ()
  | none => next ()

/-- `matcher.extract_episode_no`. -/
def extract_episode_no (title : String) : Option Nat :=
  let s := title.toList
  stepPattern (searchWith matchP1At none s) (fun _ =>
    stepPattern (searchWith matchP2At none s) (fun _ =>
      stepPattern (searchWith (fun _ l => matchP3At l) none s) (fun _ =>
        stepPattern (searchWith (fun _ l => matchP4At l) none s) (fun _ =>
          finditerEp (s.length + 1) none s))))

/-- Modelled from the spec: `extract_episode_range` is imported by
`app/services/pipeline.py` from the matcher module, but its definition is
absent from the sources provided.  Per spec §4.2 it recognizes batch-pack
episode ranges written like `01-13` or `01~13` and returns the pair of
endpoints.  The model scans for the leftmost digit run immediately followed
by `-` or `~` and another digit run. -/
def rangeScan : Nat → List Char → Option (Nat × Nat)
  | 0, _ => none
  | _ + 1, [] => none
  | fuel + 1, c :: rest =>
    if isDigitChar c then
      let run1 := (c :: rest).takeWhile isDigitChar
      let after1 := (c :: rest).drop run1.length
      match after1 with
      | sep :: r2 =>
        if sep == '-' || sep == '~' then
          let run2 := r2.takeWhile isDigitChar
          if run2.isEmpty then rangeScan fuel after1
          else some (digitsToNat run1, digitsToNat run2)
        else rangeScan fuel after1
      | [] => none
    else rangeScan fuel rest

/-- Modelled from the spec (see `rangeScan`): batch-pack range extraction. -/
def extract_episode_range (title : String) : Option (Nat × Nat) :=
  rangeScan (title.length + 1) title.toList

/-! ### Data model (`app/models/entities.py`).

Only the fields the verified operations read or write are modelled.
`Episode.state` is one of the four strings `planned|aired|downloaded|missing`,
modelled as an inductive type. -/

inductive EpState
  | planned
  | aired
  | downloaded
  | missing
deriving DecidableEq, Repr

structure EpisodeRow where
  ep_no : Nat
  state : EpState
deriving DecidableEq, Repr

structure ShowRec where
  id : Nat
  title_input : String
  title_canonical : String
  bangumi_id : Option Int
  status : String
  total_eps : Option Int
  ep_offset : Int
deriving DecidableEq, Repr

structure ReleaseRow where
  show_id : Nat
  ep_no : Nat
  source : String
  title : String
  magnet_or_torrent : String
  score : Int
deriving DecidableEq, Repr

/-- Python truthiness of an optional integer (`None` and `0` are falsy). -/
def truthyOptInt (o : Option Int) : Bool := o.getD 0 != 0

def insertSorted (n : Nat) : List Nat → List Nat
  | [] => [n]
  | m :: rest => if n ≤ m then n :: m :: rest else m :: insertSorted n rest

/-- Python `sorted` on a list of naturals. -/
def sortNat (l : List Nat) : List Nat := l.foldr insertSorted []

/-! ### Metadata resolver (`app/services/anime_db.py`).

Network calls (`_media_by_id`, `_pick_best_media`, the airing-schedule pages
of `_fetch_aired_upto`) are oracles passed in as function parameters; the
rest is translated statement by statement. -/

def status_map (anilistStatus : String) : String :=
  if anilistStatus.toUpper == "RELEASING" then "airing"
  else if anilistStatus.toUpper == "FINISHED" then "finished"
  else if anilistStatus.toUpper == "NOT_YET_RELEASED" then "planned"
  else "airing"

/-- The fields of an AniList media object the resolver reads after matching. -/
structure MediaRec where
  id : Int
  status : String
  episodes : Option Int
  nextAirEp : Option Int
deriving DecidableEq, Repr

/-- `_cleanup_overflow_rows`: when `total_eps` is truthy, delete every row
with `ep_no > total_eps` whose state is not `downloaded`. -/
def cleanupOverflowRows (totalEps : Option Int) (rows : List EpisodeRow) : List EpisodeRow :=
  if truthyOptInt totalEps then
    rows.filter (fun r => !(decide (totalEps.getD 0 < (r.ep_no : Int)) && r.state != EpState.downloaded))
  else rows

def desiredState (airedUpto n : Nat) : EpState :=
  if n ≤ airedUpto then EpState.aired else EpState.planned

/-- The in-place update of one episode row: never downgrade `downloaded`. -/
def applyDesired (d : EpState) (r : EpisodeRow) : EpisodeRow :=
  if r.state == EpState.downloaded then r else { r with state := d }

/-- Python's `by_no = {r.ep_no: r for r in rows}` keeps, for each `ep_no`, the
last row of the list; `_sync_episode_rows` mutates that row in place.  This
updates the last row carrying `ep_no = n`. -/
def updateLast : List EpisodeRow → Nat → EpState → List EpisodeRow
  | [], _, _ => []
  | r :: rest, n, d =>
    if rest.any (fun x => x.ep_no == n) then r :: updateLast rest n d
    else if r.ep_no == n then applyDesired d r :: rest
    else r :: updateLast rest n d

def epPresent (rows : List EpisodeRow) (n : Nat) : Bool :=
  rows.any (fun r => r.ep_no == n)

/-- `max_ep = int(total_eps) if total_eps else aired_upto`, raised to
`aired_upto` when smaller. -/
def syncMaxEp (totalEps : Option Int) (airedUpto : Nat) : Nat :=
  let m : Int := if truthyOptInt totalEps then totalEps.getD 0 else (airedUpto : Int)
  (max m (airedUpto : Int)).toNat

/-- `_sync_episode_rows`: for `n` in `1..max_ep` create the row if absent
(state `aired` below `aired_upto`, else `planned`) or update the existing row
unless it is `downloaded`; finally run overflow cleanup (the session query in
the source sees the freshly added rows too). -/
def syncEpisodeRows (totalEps : Option Int) (airedUpto : Nat) (rows : List EpisodeRow) : List EpisodeRow :=
  let ns := List.range' 1 (syncMaxEp totalEps airedUpto)
  let updated := ns.foldl
    (fun acc n => if epPresent rows n then updateLast acc n (desiredState airedUpto n) else acc) rows
  let created := (ns.filter (fun n => !epPresent rows n)).map
    (fun n => ⟨n, desiredState airedUpto n⟩)
  cleanupOverflowRows totalEps (updated ++ created)

/-- `_fetch_aired_upto` after its network paging: `scheduleMax` is the largest
already-aired episode found on the schedule pages (0 when none or when every
page request failed); then the two fallbacks. -/
def fetch_aired_upto (scheduleMax : Nat) (status : String) (totalEps nextAirEp : Option Int) : Nat :=
  if 0 < scheduleMax then scheduleMax
  else if truthyOptInt nextAirEp && decide (0 < nextAirEp.getD 0) then (max 0 (nextAirEp.getD 0 - 1)).toNat
  else if status == "finished" && truthyOptInt totalEps then (totalEps.getD 0).toNat
  else 0

/-- The per-show report entry of `sync_authentic_anime_info`; only the keys
the claims mention are modelled (`transient_fetch_failure` is present in the
Python dict exactly when it is `some` here). -/
structure ShowSyncDetail where
  matched : Bool
  transient_fetch_failure : Option Bool
  locked_anilist_id : Option Int
deriving DecidableEq, Repr

structure ResolverShowResult where
  outShow : ShowRec
  outRows : List EpisodeRow
  detail : ShowSyncDetail
deriving Repr

/-- The matched tail of the per-show body of `sync_authentic_anime_info`:
map the status, adopt a truthy episode count, compute `aired_upto` and
synchronize the episode rows. -/
def resolverMatched (scheduleMax : Int → Nat) (sh : ShowRec) (rows : List EpisodeRow)
    (m : MediaRec) : ResolverShowResult :=
  let st := status_map m.status
  let sh2 := { sh with status := st,
                       total_eps := if truthyOptInt m.episodes then m.episodes else sh.total_eps }
  let nextAirEp : Option Int :=
    if m.nextAirEp.getD 0 != 0 then some (m.nextAirEp.getD 0) else none
  let airedUpto := fetch_aired_upto (scheduleMax m.id) st sh2.total_eps nextAirEp
  ⟨sh2, syncEpisodeRows sh2.total_eps airedUpto rows, ⟨true, none, none⟩⟩

/-- The `if not media:` tail of the per-show body when no media could be
obtained at all: only overflow cleanup runs, and the detail record carries
the `transient_fetch_failure` flag exactly when a truthy sticky id exists. -/
def resolverNoMedia (sh : ShowRec) (rows : List EpisodeRow) : ResolverShowResult :=
  if truthyOptInt sh.bangumi_id then
    ⟨sh, cleanupOverflowRows sh.total_eps rows, ⟨false, some true, sh.bangumi_id⟩⟩
  else
    ⟨sh, cleanupOverflowRows sh.total_eps rows, ⟨false, none, none⟩⟩

/-- One show's pass through `sync_authentic_anime_info`: reuse a truthy
sticky `bangumi_id` through `fetchById`; otherwise (or when that fetch
returns nothing) fall back to search matching, persisting a truthy matched
id; when no media is obtained at all, `resolverNoMedia`. -/
def resolverShowStep (fetchById : Int → Option MediaRec) (searchBest : Option MediaRec)
    (scheduleMax : Int → Nat) (sh : ShowRec) (rows : List EpisodeRow) : ResolverShowResult :=
  match (if truthyOptInt sh.bangumi_id then fetchById (sh.bangumi_id.getD 0) else none) with
  | some m => resolverMatched scheduleMax sh rows m
  | none =>
    match searchBest with
    | some m =>
      resolverMatched scheduleMax
        (if m.id != 0 then { sh with bangumi_id := some m.id } else sh) rows m
    | none => resolverNoMedia sh rows

/-! ### Reconciler episode-table effect (`app/services/reconciler.py`,
`reconcile_library` lines 408–415).

For every successfully organized file the reconciler upserts the episode row
to `downloaded` (creating it when absent); this is the only state transition
it applies to episode rows.  A whole run is the fold over the organized
episode numbers. -/

def setFirstDownloaded : List EpisodeRow → Nat → List EpisodeRow
  | [], _ => []
  | r :: rest, ep =>
    if r.ep_no == ep then { r with state := EpState.downloaded } :: rest
    else r :: setFirstDownloaded rest ep

def upsertDownloaded (rows : List EpisodeRow) (ep : Nat) : List EpisodeRow :=
  if rows.any (fun r => r.ep_no == ep) then setFirstDownloaded rows ep
  else rows ++ [⟨ep, EpState.downloaded⟩]

def reconcilerEpisodeSync (organizedEps : List Nat) (rows : List EpisodeRow) : List EpisodeRow :=
  organizedEps.foldl upsertDownloaded rows

/-! ### Hash manifest (`app/services/hash_manifest.py`). -/

/-- A manifest `episodes` entry; only the `md5` key is ever read by the
consistency check (a non-dict JSON entry behaves as an absent `md5`). -/
structure ManifestEpisodeEntry where
  md5 : Option String
deriving DecidableEq, Repr

structure Manifest where
  episodes : List (String × ManifestEpisodeEntry)
  hash_index : List (String × String)
deriving DecidableEq, Repr

def lookupAssoc (l : List (String × α)) (k : String) : Option α :=
  (l.find? (fun p => p.1 == k)).map (fun p => p.2)

/-- Python `f"{n:02d}"`: zero-pad to a minimum width of two. -/
def pad2 (n : Nat) : String := if n < 10 then "0" ++ toString n else toString n

def episode_key (season ep : Nat) : String := "S" ++ pad2 season ++ "E" ++ pad2 ep

structure ManifestCheckResult where
  ok : Bool
  reasons : List String
deriving DecidableEq, Repr

/-- `check_mapping_consistency`: flag a truthy indexed key differing from the
proposed `SxxExx`, and a truthy recorded md5 differing from the file's. -/
def check_mapping_consistency (M : Manifest) (season ep : Nat) (fileMd5 : String) : ManifestCheckResult :=
  let key := episode_key season ep
  let r1 : List String :=
    match lookupAssoc M.hash_index fileMd5 with
    | some idx => if idx != "" && idx != key then ["hash_conflicts_with_" ++ idx] else []
    | none => []
  let r2 : List String :=
    match lookupAssoc M.episodes key with
    | some e =>
      match e.md5 with
      | some old => if old != "" && old != fileMd5 then ["episode_md5_mismatch"] else []
      | none => []
    | none => []
  ⟨(r1 ++ r2).isEmpty, r1 ++ r2⟩

inductive ReconcileFileAction
  | organized
  | quarantinedNeedsReview
deriving DecidableEq, Repr

/-- The manifest gate of `reconcile_library` (lines 386–405): a confidently
classified episode file is organized only when the consistency check passes;
otherwise it is moved to the Needs-Review bucket. -/
def reconcileConfidentFile (M : Manifest) (season ep : Nat) (fileMd5 : String) : ReconcileFileAction :=
  if (check_mapping_consistency M season ep fileMd5).ok then ReconcileFileAction.organized
  else ReconcileFileAction.quarantinedNeedsReview

/-! ### Organizer (`app/services/organizer.py`). -/

/-- Python `str.strip()`. -/
def pyStrip (l : List Char) : List Char :=
  ((l.dropWhile isSpaceChar).reverse.dropWhile isSpaceChar).reverse

def lowerPrefix (pat : String) (l : List Char) : Bool :=
  (l.take pat.length).map Char.toLower == pat.toList

/-- After the season keyword: `\s*\d{1,2}$` — spaces, then one or two digits
reaching the end of the string. -/
def seasonKwTail (l : List Char) : Bool :=
  (l.dropWhile isSpaceChar).all isDigitChar
    && decide (1 ≤ (l.dropWhile isSpaceChar).length)
    && decide ((l.dropWhile isSpaceChar).length ≤ 2)

/-- The keyword alternation `(?:season|s)\s*\d{1,2}$` applied to the text
right after the leading whitespace run. -/
def seasonBranches (r : List Char) : Bool :=
  (lowerPrefix "season" r && seasonKwTail (r.drop 6)) ||
    (lowerPrefix "s" r && seasonKwTail (r.drop 1))

/-- Whether `\s+(?:season|s)\s*\d{1,2}$` (IGNORECASE) matches the whole of
`l` (i.e. a match of the anchored pattern starts exactly here). -/
def seasonSuffixFrom (l : List Char) : Bool :=
  match l with
  | [] => false
  | c :: _ => isSpaceChar c && seasonBranches (l.dropWhile isSpaceChar)

/-- Leftmost-match `re.sub` of the `$`-anchored pattern: cut at the first
position from which the pattern matches to the end. -/
def stripSeasonCore : List Char → List Char → List Char
  | acc, [] => acc.reverse
  | acc, c :: rest =>
    if seasonSuffixFrom (c :: rest) then acc.reverse
    else stripSeasonCore (c :: acc) rest

/-- `organizer._display_title`. -/
def _display_title (s : String) : String :=
  String.mk (stripSeasonCore [] (pyStrip s.toList))

/-! ### `GET /shows/{id}/status` (`app/api/routes.py`, `show_status`). -/

structure ShowStatusResp where
  latest_downloaded_ep : Option Nat
  downloaded_count : Nat
  total_eps : Option Int
  missing_count : Option Int
  complete : Bool
deriving DecidableEq, Repr

/-- `show_status`: the sorted set of downloaded episode numbers, its size and
last element, `missing = max(total - count, 0)` for truthy totals, and
`complete = bool(total_eps and downloaded_count >= total_eps)`. -/
def show_status (sh : ShowRec) (eps : List EpisodeRow) : ShowStatusResp :=
  let dl := sortNat (((eps.filter (fun e => e.state == EpState.downloaded)).map (fun e => e.ep_no)).eraseDups)
  let count := dl.length
  let t := sh.total_eps
  { latest_downloaded_ep := dl.getLast?
    downloaded_count := count
    total_eps := t
    missing_count := if truthyOptInt t then some (max (t.getD 0 - (count : Int)) 0) else none
    complete := truthyOptInt t && decide ((t.getD 0) ≤ (count : Int)) }

/-! ### `POST /shows` (`app/api/routes.py`, `add_show`). -/

structure AddShowPayload where
  title : String
  canonical_title : Option String
  total_eps : Option Int
deriving DecidableEq, Repr

structure AddShowResp where
  ok : Bool
  show_id : Nat
  dedup : Option Bool
deriving DecidableEq, Repr

/-- `canonical = payload.canonical_title or payload.title` (Python `or`:
an empty string also falls back to the title). -/
def addShowCanonical (p : AddShowPayload) : String :=
  match p.canonical_title with
  | some c => if c == "" then p.title else c
  | none => p.title

/-- `add_show`: return the first show with the resolved canonical title as a
dedup hit (the `dedup` key of the response dict is present exactly when it is
`some` here), else insert a fresh row with status `airing`. -/
def add_show (db : List ShowRec) (nextId : Nat) (p : AddShowPayload) : List ShowRec × AddShowResp :=
  match db.find? (fun s => s.title_canonical == addShowCanonical p) with
  | some e => (db, ⟨true, e.id, some true⟩)
  | none =>
    (db ++ [⟨nextId, p.title, addShowCanonical p, none, "airing", p.total_eps, 0⟩],
      ⟨true, nextId, none⟩)

/-! ### Job runner (`app/services/job_runner.py`).

Only the fields `JobRunner.get` reads or writes are modelled; wall-clock
readings (`time.time()`) are modelled as integers — the watchdog logic only
compares them — and `get` takes the current reading as a parameter. -/

inductive JobStatus
  | queued
  | running
  | done
  | failed
  | cancelled
deriving DecidableEq, Repr

structure Job where
  status : JobStatus
  started_at : Option Int
  timeout_sec : Option Int
  finished_at : Option Int
  error : Option String
deriving DecidableEq, Repr

def watchdogMsg (t : Int) : String := "job watchdog timeout after " ++ toString t ++ "s"

/-- `JobRunner.get`: the watchdog force-fails a running job with truthy
`started_at` and `timeout_sec` once `now - started_at > timeout_sec + 5`. -/
def jobGet (j : Job) (now : Int) : Job :=
  if j.status == JobStatus.running && (j.started_at.getD 0 != 0) && (j.timeout_sec.getD 0 != 0) &&
      decide (j.timeout_sec.getD 0 + 5 < now - j.started_at.getD 0) then
    { j with status := JobStatus.failed,
             error := some (watchdogMsg (j.timeout_sec.getD 0)),
             finished_at := some now }
  else j

/-! ### Release pipeline (`app/services/pipeline.py`).

Two parts are embedded: the per-show prelude that decides whether the show is
skipped before any fetch (lines 111–135), and the selection/enqueue stage
(lines 253–336), which is the only place Release rows are created.  The
fetch/scoring stages in between only produce the `by_ep` and `ranked`
collections, which the theorems quantify over; qBittorrent, the link
resolver and the monotonic-clock budget checks are oracles. -/

def downloadedEpsOf (rows : List EpisodeRow) : List Nat :=
  sortNat ((rows.filter (fun e => e.state == EpState.downloaded)).map (fun e => e.ep_no))

/-- `wanted_eps`: the sorted set of episode numbers in state aired/missing
that are not already downloaded. -/
def wantedEpsOf (rows : List EpisodeRow) (downloaded : List Nat) : List Nat :=
  sortNat (((rows.filter (fun e =>
    (e.state == EpState.aired || e.state == EpState.missing) && !downloaded.contains e.ep_no)).map
      (fun e => e.ep_no)).eraseDups)

/-- Initial-bootstrap backfill: with no download history and a truthy
`total_eps`, an empty wanted set widens to `1..total_eps`. -/
def bootstrapWanted (sh : ShowRec) (downloaded : List Nat) (wanted : List Nat) : List Nat :=
  if wanted.isEmpty && downloaded.isEmpty && truthyOptInt sh.total_eps then
    (List.range' 1 (sh.total_eps.getD 0).toNat).filter (fun ep => !downloaded.contains ep)
  else wanted

def isCompleteShow (sh : ShowRec) (downloaded : List Nat) : Bool :=
  truthyOptInt sh.total_eps && decide ((sh.total_eps.getD 0) ≤ (downloaded.length : Int))

/-- The `continue` guard of `poll_and_enqueue`: a complete show with an empty
wanted set is skipped before any feed or API fetch. -/
def pollShowSkips (sh : ShowRec) (rows : List EpisodeRow) : Bool :=
  isCompleteShow sh (downloadedEpsOf rows) &&
    (bootstrapWanted sh (downloadedEpsOf rows) (wantedEpsOf rows (downloadedEpsOf rows))).isEmpty

structure ShowPollOutcome where
  rssFetches : Nat
  apiFetches : Nat
  added : Nat
deriving DecidableEq, Repr

/-- The per-show observable effects of one `poll_and_enqueue` iteration: a
skipped show performs no RSS fetch, no fallback-API fetch and no enqueue;
otherwise `fetch_candidates` is called exactly once, the fallback API at most
once (depending on the remaining time budget), and the selection stage adds
`addedBySelection` releases. -/
def pollShowRun (apiWithinBudget : Bool) (addedBySelection : Nat) (sh : ShowRec)
    (rows : List EpisodeRow) : ShowPollOutcome :=
  if pollShowSkips sh rows then ⟨0, 0, 0⟩
  else ⟨1, if apiWithinBudget then 1 else 0, addedBySelection⟩

structure RssCandidate where
  title : String
  link : String
  source : String
deriving DecidableEq, Repr

structure EnqueueState where
  releases : List ReleaseRow
  episodes : List EpisodeRow
  seenEps : List Nat
  added : Nat
  attempts : Nat
  ticks : Nat
deriving Repr

structure PipelineOracle where
  resolveLink : String → String
  addMagnetOk : String → Bool
  timeUp : Nat → Bool

/-- `max_enqueue_attempts = max(6, settings.max_add_per_show_per_cycle * 4)`. -/
def max_enqueue_attempts (cap : Nat) : Nat := max 6 (cap * 4)

/-- `_try_enqueue`: skip covered episodes and exhausted attempt budgets;
count the attempt; skip exact `(show, ep, link)` duplicates; resolve and hand
to qBittorrent; on success append the Release row, upsert an `aired` Episode
row, and mark the episode covered. -/
def tryEnqueue (O : PipelineOracle) (showId maxAttempts : Nat) (epNo : Nat) (s : Int)
    (cand : RssCandidate) (st : EnqueueState) : EnqueueState × Bool :=
  if st.seenEps.contains epNo then (st, false)
  else if maxAttempts ≤ st.attempts then (st, false)
  else if st.releases.any (fun r =>
      r.show_id == showId && r.ep_no == epNo && r.magnet_or_torrent == cand.link) then
    ({ st with attempts := st.attempts + 1 }, false)
  else if O.addMagnetOk (O.resolveLink cand.link) then
    ({ releases := st.releases ++ [⟨showId, epNo, cand.source, cand.title,
          O.resolveLink cand.link, s⟩],
       episodes := if st.episodes.any (fun e => e.ep_no == epNo) then st.episodes
                   else st.episodes ++ [⟨epNo, EpState.aired⟩],
       seenEps := epNo :: st.seenEps,
       added := st.added + 1,
       attempts := st.attempts + 1,
       ticks := st.ticks }, true)
  else ({ st with attempts := st.attempts + 1 }, false)

/-- Pass 1 inner loop: the target episode's top two candidates; skip scores
below the threshold; stop at the first successful enqueue. -/
def passOneInner (O : PipelineOracle) (showId maxAttempts : Nat) (minScore : Int)
    (targetEp : Nat) : List (Int × RssCandidate) → EnqueueState → EnqueueState
  | [], st => st
  | (s, c) :: rest, st =>
    if s < minScore then passOneInner O showId maxAttempts minScore targetEp rest st
    else if (tryEnqueue O showId maxAttempts targetEp s c st).2 then
      (tryEnqueue O showId maxAttempts targetEp s c st).1
    else
      passOneInner O showId maxAttempts minScore targetEp rest
        (tryEnqueue O showId maxAttempts targetEp s c st).1

/-- One `time.monotonic()` budget check consumed at the head of a loop
iteration. -/
def tickState (st : EnqueueState) : EnqueueState := { st with ticks := st.ticks + 1 }

/-- Pass 1: wanted episodes in ascending order; break on the per-show cap,
the attempt budget or the time budget; skip episodes that already carry a
Release row. -/
def passOne (O : PipelineOracle) (cap maxAttempts : Nat) (minScore : Int) (showId : Nat)
    (byEp : Nat → List (Int × RssCandidate)) (epsWithRelease : List Nat) :
    List Nat → EnqueueState → EnqueueState
  | [], st => st
  | t :: rest, st =>
    if cap ≤ st.added then st
    else if maxAttempts ≤ st.attempts then st
    else if O.timeUp st.ticks then tickState st
    else if epsWithRelease.contains t then
      passOne O cap maxAttempts minScore showId byEp epsWithRelease rest (tickState st)
    else
      passOne O cap maxAttempts minScore showId byEp epsWithRelease rest
        (passOneInner O showId maxAttempts minScore t ((byEp t).take 2) (tickState st))

/-- Pass 2: globally ranked candidates; same break conditions; a candidate
without a parsed episode (sentinel 0, matching Python's `parsed_ep or …`)
falls back to the first wanted episode or `next_ep`. -/
def passTwo (O : PipelineOracle) (cap maxAttempts : Nat) (minScore : Int) (showId : Nat)
    (wanted : List Nat) (nextEp : Nat) :
    List (Int × Nat × RssCandidate) → EnqueueState → EnqueueState
  | [], st => st
  | (s, pe, c) :: rest, st =>
    if cap ≤ st.added then st
    else if maxAttempts ≤ st.attempts then st
    else if O.timeUp st.ticks then tickState st
    else if s < minScore then
      passTwo O cap maxAttempts minScore showId wanted nextEp rest (tickState st)
    else
      passTwo O cap maxAttempts minScore showId wanted nextEp rest
        (tryEnqueue O showId maxAttempts (if pe != 0 then pe else wanted.headD nextEp) s c
          (tickState st)).1

/-- The whole selection/enqueue stage for one show: seed `seen_eps` with the
downloaded episodes and those already carrying Release rows, then run the two
passes. -/
def runSelection (O : PipelineOracle) (cap : Nat) (minScore : Int) (showId : Nat)
    (downloaded : List Nat) (nextEp : Nat) (wanted : List Nat)
    (byEp : Nat → List (Int × RssCandidate)) (ranked : List (Int × Nat × RssCandidate))
    (existingRels : List ReleaseRow) (episodes : List EpisodeRow) : EnqueueState :=
  passTwo O cap (max_enqueue_attempts cap) minScore showId wanted nextEp ranked
    (passOne O cap (max_enqueue_attempts cap) minScore showId byEp
      (existingRels.map (fun r => r.ep_no)) wanted
      ⟨existingRels, episodes, downloaded ++ existingRels.map (fun r => r.ep_no), 0, 0, 0⟩)

/-- The defaults of `app/settings.py` the claims refer to. -/
structure Settings where
  max_add_per_show_per_cycle : Nat := 5
  per_show_time_budget_sec : Nat := 25
deriving Repr

def settings : Settings := {}

end Luciola

/-! ## Theorems

Helper lemmas first, then one theorem per claim (with a witness where the
theorem carries hypotheses, and a counterexample where the claim as stated
fails on the code). -/

namespace Luciola

theorem applyDesired_of_downloaded {r : EpisodeRow} (d : EpState)
    (h : r.state = EpState.downloaded) : applyDesired d r = r := by
  simp [applyDesired, h]

theorem mem_updateLast_of_downloaded {r : EpisodeRow} :
    ∀ (rows : List EpisodeRow) (n : Nat) (d : EpState),
      r ∈ rows → r.state = EpState.downloaded → r ∈ updateLast rows n d := by
  intro rows
  induction rows with
  | nil => intro n d h _; cases h
  | cons a rest ih =>
    intro n d hmem hdl
    rcases List.mem_cons.mp hmem with hr | hr
    · subst hr
      unfold updateLast
      split
      · exact List.mem_cons_self _ _
      · split
        · rw [applyDesired_of_downloaded _ hdl]; exact List.mem_cons_self _ _
        · exact List.mem_cons_self _ _
    · unfold updateLast
      split
      · exact List.mem_cons_of_mem _ (ih n d hr hdl)
      · split
        · exact List.mem_cons_of_mem _ hr
        · exact List.mem_cons_of_mem _ (ih n d hr hdl)

end Luciola

namespace Luciola

theorem mem_cleanup_of_downloaded {r : EpisodeRow} (totalEps : Option Int)
    (rows : List EpisodeRow) (hmem : r ∈ rows) (hdl : r.state = EpState.downloaded) :
    r ∈ cleanupOverflowRows totalEps rows := by
  unfold cleanupOverflowRows
  split
  · refine List.mem_filter.mpr ⟨hmem, ?_⟩
    simp [hdl]
  · exact hmem

theorem mem_foldUpdate_of_downloaded {r : EpisodeRow} (rows : List EpisodeRow) (airedUpto : Nat) :
    ∀ (ns : List Nat) (acc : List EpisodeRow), r ∈ acc → r.state = EpState.downloaded →
      r ∈ ns.foldl (fun acc n =>
        if epPresent rows n then updateLast acc n (desiredState airedUpto n) else acc) acc := by
  intro ns
  induction ns with
  | nil => intro acc h _; exact h
  | cons n rest ih =>
    intro acc hmem hdl
    simp only [List.foldl_cons]
    apply ih
    · split
      · exact mem_updateLast_of_downloaded acc n _ hmem hdl
      · exact hmem
    · exact hdl

theorem mem_syncEpisodeRows_of_downloaded {r : EpisodeRow} (totalEps : Option Int)
    (airedUpto : Nat) (rows : List EpisodeRow) (hmem : r ∈ rows)
    (hdl : r.state = EpState.downloaded) : r ∈ syncEpisodeRows totalEps airedUpto rows := by
  unfold syncEpisodeRows
  exact mem_cleanup_of_downloaded _ _
    (List.mem_append_left _ (mem_foldUpdate_of_downloaded rows airedUpto _ rows hmem hdl)) hdl

theorem resolverMatched_outRows (scheduleMax : Int → Nat) (sh : ShowRec)
    (rows : List EpisodeRow) (m : MediaRec) :
    ∃ te au, (resolverMatched scheduleMax sh rows m).outRows = syncEpisodeRows te au rows :=
  ⟨_, _, rfl⟩

theorem resolverShowStep_outRows (fetchById : Int → Option MediaRec)
    (searchBest : Option MediaRec) (scheduleMax : Int → Nat) (sh : ShowRec)
    (rows : List EpisodeRow) :
    (∃ te au, (resolverShowStep fetchById searchBest scheduleMax sh rows).outRows
        = syncEpisodeRows te au rows) ∨
    (resolverShowStep fetchById searchBest scheduleMax sh rows).outRows
        = cleanupOverflowRows sh.total_eps rows := by
  unfold resolverShowStep
  cases h0 : (if truthyOptInt sh.bangumi_id then fetchById (sh.bangumi_id.getD 0) else none) with
  | some m => exact Or.inl ⟨_, _, rfl⟩
  | none =>
    cases searchBest with
    | some m => exact Or.inl ⟨_, _, rfl⟩
    | none =>
      refine Or.inr ?_
      show (resolverNoMedia sh rows).outRows = cleanupOverflowRows sh.total_eps rows
      unfold resolverNoMedia
      split
      · rfl
      · rfl

theorem mem_resolverShowStep_of_downloaded {r : EpisodeRow}
    (fetchById : Int → Option MediaRec) (searchBest : Option MediaRec)
    (scheduleMax : Int → Nat) (sh : ShowRec) (rows : List EpisodeRow)
    (hmem : r ∈ rows) (hdl : r.state = EpState.downloaded) :
    r ∈ (resolverShowStep fetchById searchBest scheduleMax sh rows).outRows := by
  rcases resolverShowStep_outRows fetchById searchBest scheduleMax sh rows with ⟨te, au, h⟩ | h
  · rw [h]; exact mem_syncEpisodeRows_of_downloaded te au rows hmem hdl
  · rw [h]; exact mem_cleanup_of_downloaded _ rows hmem hdl

theorem mem_setFirstDownloaded_of_downloaded {r : EpisodeRow} :
    ∀ (rows : List EpisodeRow) (ep : Nat), r ∈ rows → r.state = EpState.downloaded →
      r ∈ setFirstDownloaded rows ep := by
  intro rows
  induction rows with
  | nil => intro ep h _; cases h
  | cons a rest ih =>
    intro ep hmem hdl
    rcases List.mem_cons.mp hmem with hr | hr
    · subst hr
      unfold setFirstDownloaded
      split
      · have h2 : ({ r with state := EpState.downloaded } : EpisodeRow) = r := by
          cases r with
          | mk e s => simp_all
        rw [h2]
        exact List.mem_cons_self _ _
      · exact List.mem_cons_self _ _
    · unfold setFirstDownloaded
      split
      · exact List.mem_cons_of_mem _ hr
      · exact List.mem_cons_of_mem _ (ih ep hr hdl)

theorem mem_upsertDownloaded_of_downloaded {r : EpisodeRow} (rows : List EpisodeRow) (ep : Nat)
    (hmem : r ∈ rows) (hdl : r.state = EpState.downloaded) : r ∈ upsertDownloaded rows ep := by
  unfold upsertDownloaded
  split
  · exact mem_setFirstDownloaded_of_downloaded rows ep hmem hdl
  · exact List.mem_append_left _ hmem

theorem mem_reconcilerEpisodeSync_of_downloaded {r : EpisodeRow} :
    ∀ (eps : List Nat) (rows : List EpisodeRow), r ∈ rows → r.state = EpState.downloaded →
      r ∈ reconcilerEpisodeSync eps rows := by
  intro eps
  induction eps with
  | nil => intro rows h _; exact h
  | cons e rest ih =>
    intro rows hmem hdl
    unfold reconcilerEpisodeSync at *
    simp only [List.foldl_cons]
    exact ih _ (mem_upsertDownloaded_of_downloaded rows e hmem hdl) hdl

/-- C1: Never downgrade downloaded — every episode row in state `downloaded`
survives, still downloaded, any per-show resolver run (matched or failed) and
any reconciler run; episode-row synchronization leaves downloaded rows
untouched and overflow cleanup never deletes a downloaded row. -/
theorem C1_never_downgrade_downloaded :
    (∀ (fetchById : Int → Option MediaRec) (searchBest : Option MediaRec)
        (scheduleMax : Int → Nat) (sh : ShowRec) (rows : List EpisodeRow) (r : EpisodeRow),
        r ∈ rows → r.state = EpState.downloaded →
        r ∈ (resolverShowStep fetchById searchBest scheduleMax sh rows).outRows)
    ∧ (∀ (totalEps : Option Int) (airedUpto : Nat) (rows : List EpisodeRow) (r : EpisodeRow),
        r ∈ rows → r.state = EpState.downloaded → r ∈ syncEpisodeRows totalEps airedUpto rows)
    ∧ (∀ (totalEps : Option Int) (rows : List EpisodeRow) (r : EpisodeRow),
        r ∈ rows → r.state = EpState.downloaded → r ∈ cleanupOverflowRows totalEps rows)
    ∧ (∀ (organizedEps : List Nat) (rows : List EpisodeRow) (r : EpisodeRow),
        r ∈ rows → r.state = EpState.downloaded → r ∈ reconcilerEpisodeSync organizedEps rows) := by
  refine ⟨?_, ?_, ?_, ?_⟩
  · intro fetchById searchBest scheduleMax sh rows r hmem hdl
    exact mem_resolverShowStep_of_downloaded fetchById searchBest scheduleMax sh rows hmem hdl
  · intro totalEps airedUpto rows r hmem hdl
    exact mem_syncEpisodeRows_of_downloaded totalEps airedUpto rows hmem hdl
  · intro totalEps rows r hmem hdl
    exact mem_cleanup_of_downloaded totalEps rows hmem hdl
  · intro organizedEps rows r hmem hdl
    exact mem_reconcilerEpisodeSync_of_downloaded organizedEps rows hmem hdl

/-- Concrete instantiation of `C1_never_downgrade_downloaded`: a downloaded
row beyond `total_eps` survives a failed resolver run, a sync run, overflow
cleanup, and a reconciler run that re-organizes other episodes. -/
theorem C1_witness :
    ((⟨2, EpState.downloaded⟩ : EpisodeRow) ∈
      (resolverShowStep (fun _ => none) none (fun _ => 0)
        ⟨1, "t", "t", some 200, "airing", some 1, 0⟩ [⟨2, EpState.downloaded⟩]).outRows)
    ∧ ((⟨1, EpState.downloaded⟩ : EpisodeRow) ∈
        syncEpisodeRows (some 3) 2 [⟨1, EpState.downloaded⟩])
    ∧ ((⟨5, EpState.downloaded⟩ : EpisodeRow) ∈
        cleanupOverflowRows (some 3) [⟨5, EpState.downloaded⟩])
    ∧ ((⟨1, EpState.downloaded⟩ : EpisodeRow) ∈
        reconcilerEpisodeSync [1, 2] [⟨1, EpState.downloaded⟩]) :=
  ⟨C1_never_downgrade_downloaded.1 (fun _ => none) none (fun _ => 0)
      ⟨1, "t", "t", some 200, "airing", some 1, 0⟩ [⟨2, EpState.downloaded⟩]
      ⟨2, EpState.downloaded⟩ (by decide) rfl,
    C1_never_downgrade_downloaded.2.1 (some 3) 2 [⟨1, EpState.downloaded⟩]
      ⟨1, EpState.downloaded⟩ (by decide) rfl,
    C1_never_downgrade_downloaded.2.2.1 (some 3) [⟨5, EpState.downloaded⟩]
      ⟨5, EpState.downloaded⟩ (by decide) rfl,
    C1_never_downgrade_downloaded.2.2.2 [1, 2] [⟨1, EpState.downloaded⟩]
      ⟨1, EpState.downloaded⟩ (by decide) rfl⟩

theorem resolverShowStep_fail_eq (fetchById : Int → Option MediaRec)
    (scheduleMax : Int → Nat) (sh : ShowRec) (rows : List EpisodeRow) (c : Int)
    (hb : sh.bangumi_id = some c) (hc : c ≠ 0) (hf : fetchById c = none) :
    resolverShowStep fetchById none scheduleMax sh rows = resolverNoMedia sh rows := by
  unfold resolverShowStep
  have ht : truthyOptInt sh.bangumi_id = true := by
    simp [truthyOptInt, hb, hc]
  rw [ht]
  simp only [if_true]
  rw [hb]
  simp only [Option.getD_some]
  rw [hf]

/-- C2 (amended: the sticky catalog id is a non-zero value, the only kind the
resolver ever assigns): when a show's `bangumi_id` is `some c`, `c ≠ 0`, and
the catalog lookup fails transiently (neither the by-id fetch nor search
matching yields media), the resolver keeps `bangumi_id = c`, performs only
overflow cleanup on the episode rows, and reports `transient_fetch_failure`. -/
theorem C2_sticky_catalog_mapping_amended :
    ∀ (fetchById : Int → Option MediaRec) (scheduleMax : Int → Nat)
      (sh : ShowRec) (rows : List EpisodeRow) (c : Int),
      sh.bangumi_id = some c → c ≠ 0 → fetchById c = none →
      (resolverShowStep fetchById none scheduleMax sh rows).outShow.bangumi_id = some c
      ∧ (resolverShowStep fetchById none scheduleMax sh rows).outRows
          = cleanupOverflowRows sh.total_eps rows
      ∧ (resolverShowStep fetchById none scheduleMax sh rows).detail.transient_fetch_failure
          = some true := by
  intro fetchById scheduleMax sh rows c hb hc hf
  rw [resolverShowStep_fail_eq fetchById scheduleMax sh rows c hb hc hf]
  have ht : truthyOptInt sh.bangumi_id = true := by
    simp [truthyOptInt, hb, hc]
  unfold resolverNoMedia
  rw [ht]
  simp [hb]

/-- Concrete instantiation of `C2_sticky_catalog_mapping_amended` at a show
locked to catalog id 200 whose lookups all fail. -/
theorem C2_witness :
    (resolverShowStep (fun _ => none) none (fun _ => 0)
        ⟨1, "t", "t", some 200, "airing", some 12, 0⟩ [⟨1, EpState.aired⟩]).outShow.bangumi_id
      = some 200
    ∧ (resolverShowStep (fun _ => none) none (fun _ => 0)
        ⟨1, "t", "t", some 200, "airing", some 12, 0⟩ [⟨1, EpState.aired⟩]).outRows
      = cleanupOverflowRows (some 12) [⟨1, EpState.aired⟩]
    ∧ (resolverShowStep (fun _ => none) none (fun _ => 0)
        ⟨1, "t", "t", some 200, "airing", some 12, 0⟩
        [⟨1, EpState.aired⟩]).detail.transient_fetch_failure = some true :=
  C2_sticky_catalog_mapping_amended (fun _ => none) (fun _ => 0)
    ⟨1, "t", "t", some 200, "airing", some 12, 0⟩ [⟨1, EpState.aired⟩] 200
    rfl (by decide) rfl

/-- C2 counterexample: the claim quantifies over every show whose catalog id
is set to some value `c`, but with `c = 0` the source's Python truthiness
check `if show.bangumi_id:` treats the id as unset: on a failed lookup the
per-show detail record lacks the `transient_fetch_failure` flag (the show is
counted as `no_match`), contradicting the claim's conclusion. -/
theorem C2_counterexample_zero_catalog_id :
    (resolverShowStep (fun _ => none) none (fun _ => 0)
        ⟨1, "t", "t", some 0, "airing", some 12, 0⟩ []).detail.transient_fetch_failure = none
    ∧ (⟨1, "t", "t", some 0, "airing", some 12, 0⟩ : ShowRec).bangumi_id = some 0 := by
  exact ⟨by decide, rfl⟩

/-- C3 counterexample: `total_eps = 0` is non-null and `downloaded_count = 0 ≥
total_eps`, so the claim's predicate says `complete = true`; but the handler
computes `bool(total_eps and …)`, where the Python truthiness of `0` makes
`complete` false. -/
theorem C3_counterexample_zero_total_eps :
    (show_status ⟨1, "Zero Show", "Zero Show", none, "airing", some 0, 0⟩ []).complete = false
    ∧ (show_status ⟨1, "Zero Show", "Zero Show", none, "airing", some 0, 0⟩ []).total_eps = some 0
    ∧ (show_status ⟨1, "Zero Show", "Zero Show", none, "airing", some 0, 0⟩ []).downloaded_count
        = 0 := by
  decide

/-- C3 (amended: `total_eps` non-null **and non-zero**): the status handler
reports `complete = true` iff the show's `total_eps` is a non-null, non-zero
value not exceeding the number of downloaded episode rows — independently of
the largest downloaded number; in particular a show with `total_eps = 13` and
only episode 13 downloaded yields `latest_downloaded_ep = 13`,
`downloaded_count = 1`, `missing_count = 12`, `complete = false`. -/
theorem C3_completeness_predicate_amended :
    (∀ (sh : ShowRec) (eps : List EpisodeRow),
      ((show_status sh eps).complete = true ↔
        ∃ t, sh.total_eps = some t ∧ t ≠ 0 ∧ t ≤ ((show_status sh eps).downloaded_count : Int)))
    ∧ show_status ⟨1, "Gap Show", "Gap Show", none, "airing", some 13, 0⟩
        [⟨13, EpState.downloaded⟩] = ⟨some 13, 1, some 13, some 12, false⟩ := by
  constructor
  · intro sh eps
    cases h : sh.total_eps with
    | none => simp [show_status, truthyOptInt, h]
    | some t0 => simp [show_status, truthyOptInt, h]
  · decide

/-- C5: the three parser equalities, on the embedded regex engine of
`matcher.extract_episode_no` and the spec-modelled `extract_episode_range`. -/
theorem C5_parser_equalities :
    extract_episode_no "[Group] Show S02 MULTi 1080p" = none
    ∧ extract_episode_no "[Group] Show - 12 [1080p].mkv" = some 12
    ∧ extract_episode_range "Show 01-13 [1080p]" = some (1, 13) := by
  refine ⟨by decide, by decide, by decide⟩

/-- C8 counterexample: `_display_title` does not strip the CJK season token
`第3季` — the regex in the source only covers `Season N`/`S N` — so
"X 第3季" does not collapse to the series root "X". -/
theorem C8_display_title_counterexample :
    _display_title "X 第3季" = "X 第3季" ∧ _display_title "X 第3季" ≠ "X" := by
  refine ⟨by decide, by decide⟩

theorem toLower_of_space {c : Char} (h : isSpaceChar c = true) : c.toLower = c := by
  have h2 : (c = ' ' || c = '\t' || c = '\r' || c = '\n') = true := h
  simp only [Bool.or_eq_true, decide_eq_true_eq] at h2
  rcases h2 with ((h3 | h3) | h3) | h3 <;> subst h3 <;> decide

theorem not_space_of_digit {c : Char} (h : isDigitChar c = true) : isSpaceChar c = false := by
  cases hs : isSpaceChar c with
  | false => rfl
  | true =>
    exfalso
    have h2 : (c = ' ' || c = '\t' || c = '\r' || c = '\n') = true := hs
    simp only [Bool.or_eq_true, decide_eq_true_eq] at h2
    rcases h2 with ((h3 | h3) | h3) | h3 <;> subst h3 <;> simp [isDigitChar] at h

theorem getLastSomeMem {l : List Char} {c : Char} (h : l.getLast? = some c) : c ∈ l := by
  have hm : c ∈ l.getLast? := by rw [h]; rfl
  rcases List.mem_getLast?_eq_getLast hm with ⟨hne, hc⟩
  rw [hc]
  exact List.getLast_mem hne

theorem mem_dropWhile_of_not {p : Char → Bool} {c : Char} :
    ∀ {l : List Char}, c ∈ l → p c = false → c ∈ l.dropWhile p := by
  intro l
  induction l with
  | nil => intro h _; cases h
  | cons a t ih =>
    intro hmem hpc
    rw [List.dropWhile_cons]
    by_cases hpa : p a = true
    · rw [hpa]
      simp only [if_true]
      rcases List.mem_cons.mp hmem with hr | hr
      · subst hr; rw [hpc] at hpa; cases hpa
      · exact ih hr hpc
    · simp only [Bool.not_eq_true] at hpa
      rw [hpa]
      simp only [Bool.false_eq_true, if_false]
      exact hmem

theorem dropWhile_append_of_all {p : Char → Bool} :
    ∀ (xs ys : List Char), xs.all p = true → (xs ++ ys).dropWhile p = ys.dropWhile p := by
  intro xs
  induction xs with
  | nil => intro ys _; rfl
  | cons a t ih =>
    intro ys hall
    rcases List.all_eq_true.mp hall a (List.mem_cons_self a t) with hpa
    show ((a :: (t ++ ys)).dropWhile p) = ys.dropWhile p
    rw [List.dropWhile_cons, hpa]
    simp only [if_true]
    exact ih ys (List.all_eq_true.mpr (fun x hx => List.all_eq_true.mp hall x (List.mem_cons_of_mem a hx)))

theorem dropWhile_append_of_ne_nil {p : Char → Bool} :
    ∀ (xs ys : List Char), xs.dropWhile p ≠ [] →
      (xs ++ ys).dropWhile p = xs.dropWhile p ++ ys := by
  intro xs
  induction xs with
  | nil => intro ys h; exact absurd rfl h
  | cons a t ih =>
    intro ys h
    rw [List.dropWhile_cons] at h
    show ((a :: (t ++ ys)).dropWhile p) = (a :: t).dropWhile p ++ ys
    rw [List.dropWhile_cons, List.dropWhile_cons]
    by_cases hpa : p a = true
    · rw [hpa] at h ⊢
      simp only [if_true] at h ⊢
      exact ih ys h
    · simp only [Bool.not_eq_true] at hpa
      rw [hpa]
      simp only [Bool.false_eq_true, if_false]
      rfl

theorem dropWhile_head_false {p : Char → Bool} :
    ∀ {l : List Char} {a : Char} {m : List Char}, l.dropWhile p = a :: m → p a = false := by
  intro l
  induction l with
  | nil => intro a m h; cases h
  | cons b t ih =>
    intro a m h
    rw [List.dropWhile_cons] at h
    by_cases hpb : p b = true
    · rw [hpb] at h; simp only [if_true] at h; exact ih h
    · simp only [Bool.not_eq_true] at hpb
      rw [hpb] at h
      simp only [Bool.false_eq_true, if_false] at h
      cases h
      exact hpb

theorem dropWhile_all_digits (D : List Char) (h : D.all isDigitChar = true) :
    D.dropWhile isSpaceChar = D := by
  cases D with
  | nil => rfl
  | cons d t =>
    rw [List.dropWhile_cons]
    have hd : isDigitChar d = true := List.all_eq_true.mp h d (List.mem_cons_self d t)
    rw [not_space_of_digit hd]
    simp

theorem seasonSuffixFrom_cons (c : Char) (l : List Char) :
    seasonSuffixFrom (c :: l)
      = (isSpaceChar c && seasonBranches ((c :: l).dropWhile isSpaceChar)) := rfl

theorem seasonKwTail_false_of_mem {z : List Char} {c : Char} (hc : c ∈ z)
    (hsp : isSpaceChar c = false) (hdg : isDigitChar c = false) : seasonKwTail z = false := by
  unfold seasonKwTail
  have hmem : c ∈ z.dropWhile isSpaceChar := mem_dropWhile_of_not hc hsp
  have hall : (z.dropWhile isSpaceChar).all isDigitChar = false := by
    cases hA : (z.dropWhile isSpaceChar).all isDigitChar with
    | false => rfl
    | true => rw [List.all_eq_true.mp hA c hmem] at hdg; cases hdg
  rw [hall]
  simp

theorem seasonKwTail_false_of_last {z : List Char}
    (h : ∀ c, z.getLast? = some c → isDigitChar c = false) : seasonKwTail z = false := by
  unfold seasonKwTail
  cases hr : z.dropWhile isSpaceChar with
  | nil => simp [hr]
  | cons a t =>
    have hsuf : z.takeWhile isSpaceChar ++ z.dropWhile isSpaceChar = z :=
      List.takeWhile_append_dropWhile isSpaceChar z
    have hlast : (a :: t).getLast? = z.getLast? := by
      rw [← hsuf, hr]
      exact (List.getLast?_append_of_ne_nil _ (by simp)).symm
    rcases hg : (a :: t).getLast? with _ | c
    · simp at hg
    · have hcz : z.getLast? = some c := by rw [← hlast, hg]
      have hdg : isDigitChar c = false := h c hcz
      have hcm : c ∈ (a :: t) := getLastSomeMem hg
      have hall : (a :: t).all isDigitChar = false := by
        cases hA : (a :: t).all isDigitChar with
        | false => rfl
        | true => rw [List.all_eq_true.mp hA c hcm] at hdg; cases hdg
      rw [hall]
      simp

theorem lowerPrefix_season_six {C X' : List Char} {w : Char}
    (hw : isSpaceChar w = true)
    (hp : lowerPrefix "season" (C ++ (w :: X')) = true) : 6 ≤ C.length := by
  by_contra hlen
  push_neg at hlen
  unfold lowerPrefix at hp
  have heq : (List.take ("season".length) (C ++ (w :: X'))).map Char.toLower
      = "season".toList := eq_of_beq hp
  have h6 : ("season" : String).length = 6 := rfl
  rw [h6] at heq
  have hmemw : w ∈ List.take 6 (C ++ (w :: X')) := by
    rw [List.take_append_eq_append_take]
    refine List.mem_append_right _ ?_
    have hke : ∃ k, 6 - C.length = k + 1 := ⟨5 - C.length, by omega⟩
    rcases hke with ⟨k, hk⟩
    rw [hk]
    exact List.mem_cons_self w _
  have hmeml : Char.toLower w ∈ (List.take 6 (C ++ (w :: X'))).map Char.toLower :=
    List.mem_map_of_mem Char.toLower hmemw
  rw [heq, toLower_of_space hw] at hmeml
  have h2 : (w = ' ' || w = '\t' || w = '\r' || w = '\n') = true := hw
  simp only [Bool.or_eq_true, decide_eq_true_eq] at h2
  rcases h2 with ((h3 | h3) | h3) | h3 <;> subst h3 <;> simp at hmeml

theorem seasonSuffixFrom_false_of_root {cl : Char} (C' W tokNS : List Char)
    (hlast : C'.getLast? = some cl) (hclsp : isSpaceChar cl = false)
    (hW : W.all isSpaceChar = true) (hWne : W ≠ [])
    (hS : 'S' ∈ tokNS) :
    seasonSuffixFrom (C' ++ (W ++ tokNS)) = false := by
  cases C' with
  | nil => cases hlast
  | cons a t =>
    show seasonSuffixFrom (a :: (t ++ (W ++ tokNS))) = false
    rw [seasonSuffixFrom_cons]
    by_cases hsp : isSpaceChar a = true
    · rw [hsp]
      simp only [Bool.true_and]
      have hclm : cl ∈ (a :: t) := getLastSomeMem hlast
      have hC'' : (a :: t).dropWhile isSpaceChar ≠ [] := by
        intro hnil
        have hmc := mem_dropWhile_of_not hclm hclsp
        rw [hnil] at hmc
        cases hmc
      have hr : (a :: (t ++ (W ++ tokNS))).dropWhile isSpaceChar
          = (a :: t).dropWhile isSpaceChar ++ (W ++ tokNS) := by
        show ((a :: t) ++ (W ++ tokNS)).dropWhile isSpaceChar = _
        exact dropWhile_append_of_ne_nil (a :: t) (W ++ tokNS) hC''
      rw [hr]
      rcases hC2 : (a :: t).dropWhile isSpaceChar with _ | ⟨b, u⟩
      · exact absurd hC2 hC''
      · unfold seasonBranches
        have hSmem : 'S' ∈ W ++ tokNS := List.mem_append_right W hS
        have hS1 : seasonKwTail (((b :: u) ++ (W ++ tokNS)).drop 1) = false := by
          have hd : ((b :: u) ++ (W ++ tokNS)).drop 1 = u ++ (W ++ tokNS) := rfl
          rw [hd]
          exact seasonKwTail_false_of_mem (List.mem_append_right u hSmem) (by decide) (by decide)
        have hS6 : (lowerPrefix "season" ((b :: u) ++ (W ++ tokNS))
            && seasonKwTail (((b :: u) ++ (W ++ tokNS)).drop 6)) = false := by
          by_cases hp : lowerPrefix "season" ((b :: u) ++ (W ++ tokNS)) = true
          · rcases W with _ | ⟨w0, W'⟩
            · exact absurd rfl hWne
            · have hw0 : isSpaceChar w0 = true :=
                List.all_eq_true.mp hW w0 (List.mem_cons_self w0 W')
              have hp2 : lowerPrefix "season" ((b :: u) ++ (w0 :: (W' ++ tokNS))) = true := by
                have hassoc : (w0 :: W') ++ tokNS = w0 :: (W' ++ tokNS) := rfl
                rw [← hassoc]
                exact hp
              have hlen : 6 ≤ (b :: u).length := lowerPrefix_season_six hw0 hp2
              have hd : ((b :: u) ++ ((w0 :: W') ++ tokNS)).drop 6
                  = (b :: u).drop 6 ++ ((w0 :: W') ++ tokNS) := by
                rw [List.drop_append_eq_append_drop]
                have hz : 6 - (b :: u).length = 0 := by omega
                rw [hz]
                rfl
              have hkt : seasonKwTail (((b :: u) ++ ((w0 :: W') ++ tokNS)).drop 6) = false := by
                rw [hd]
                exact seasonKwTail_false_of_mem
                  (List.mem_append_right _ hSmem) (by decide) (by decide)
              rw [hkt]
              simp
          · simp only [Bool.not_eq_true] at hp
            rw [hp]
            simp
        rw [hS1, hS6]
        simp
    · simp only [Bool.not_eq_true] at hsp
      rw [hsp]
      simp

theorem seasonKwTail_space_digits (D : List Char) (hD1 : D ≠ []) (hD2 : D.length ≤ 2)
    (hD3 : D.all isDigitChar = true) : seasonKwTail (' ' :: D) = true := by
  unfold seasonKwTail
  have hd : (' ' :: D).dropWhile isSpaceChar = D := by
    rw [List.dropWhile_cons]
    have hsp : isSpaceChar ' ' = true := by decide
    rw [hsp]
    simp only [if_true]
    exact dropWhile_all_digits D hD3
  rw [hd, hD3]
  have h1 : 1 ≤ D.length := List.length_pos.mpr hD1
  simp [h1, hD2]

theorem seasonKwTail_digits (D : List Char) (hD1 : D ≠ []) (hD2 : D.length ≤ 2)
    (hD3 : D.all isDigitChar = true) : seasonKwTail D = true := by
  unfold seasonKwTail
  rw [dropWhile_all_digits D hD3, hD3]
  have h1 : 1 ≤ D.length := List.length_pos.mpr hD1
  simp [h1, hD2]

theorem seasonSuffixFrom_match_gen (W tokNS : List Char)
    (hWne : W ≠ []) (hW : W.all isSpaceChar = true)
    (hhead : tokNS.head?.any (fun c => !isSpaceChar c) = true)
    (hbr : seasonBranches tokNS = true) :
    seasonSuffixFrom (W ++ tokNS) = true := by
  rcases W with _ | ⟨w, W'⟩
  · exact absurd rfl hWne
  · have hw : isSpaceChar w = true := List.all_eq_true.mp hW w (List.mem_cons_self w W')
    show seasonSuffixFrom (w :: (W' ++ tokNS)) = true
    rw [seasonSuffixFrom_cons, hw]
    simp only [Bool.true_and]
    have hdropall : ((w :: W') ++ tokNS).dropWhile isSpaceChar = tokNS.dropWhile isSpaceChar :=
      dropWhile_append_of_all (w :: W') tokNS hW
    have hdropid : tokNS.dropWhile isSpaceChar = tokNS := by
      rcases tokNS with _ | ⟨c0, t0⟩
      · rfl
      · simp only [List.head?_cons, Option.any_some, Bool.not_eq_true'] at hhead
        rw [List.dropWhile_cons]
        rw [hhead]
        rfl
    show seasonBranches ((w :: (W' ++ tokNS)).dropWhile isSpaceChar) = true
    have hconv : (w :: (W' ++ tokNS)).dropWhile isSpaceChar
        = ((w :: W') ++ tokNS).dropWhile isSpaceChar := rfl
    rw [hconv, hdropall, hdropid]
    exact hbr

theorem seasonBranches_season (D : List Char) (hD1 : D ≠ []) (hD2 : D.length ≤ 2)
    (hD3 : D.all isDigitChar = true) :
    seasonBranches ("Season ".toList ++ D) = true := by
  unfold seasonBranches
  have hp : lowerPrefix "season" ("Season ".toList ++ D) = true := by
    unfold lowerPrefix
    have h1 : List.take ("season".length) ("Season ".toList ++ D)
        = ['S', 'e', 'a', 's', 'o', 'n'] := by
      rw [List.take_append_eq_append_take]
      have h2 : List.take ("season".length) "Season ".toList = ['S', 'e', 'a', 's', 'o', 'n'] := by
        decide
      have h3 : ("season".length - ("Season ".toList).length) = 0 := by decide
      rw [h2, h3]
      simp
    rw [h1]
    decide
  have hdrop : ("Season ".toList ++ D).drop 6 = ' ' :: D := by
    rw [List.drop_append_eq_append_drop]
    have h4 : List.drop 6 "Season ".toList = [' '] := by decide
    have h5 : (6 - ("Season ".toList).length) = 0 := by decide
    rw [h4, h5]
    rfl
  rw [hp, hdrop, seasonKwTail_space_digits D hD1 hD2 hD3]
  simp

theorem seasonBranches_sSpace (D : List Char) (hD1 : D ≠ []) (hD2 : D.length ≤ 2)
    (hD3 : D.all isDigitChar = true) :
    seasonBranches ("S ".toList ++ D) = true := by
  unfold seasonBranches
  have hp : lowerPrefix "s" ("S ".toList ++ D) = true := by
    unfold lowerPrefix
    have h1 : List.take ("s".length) ("S ".toList ++ D) = ['S'] := rfl
    rw [h1]
    decide
  have hdrop : ("S ".toList ++ D).drop 1 = ' ' :: D := rfl
  rw [hp, hdrop, seasonKwTail_space_digits D hD1 hD2 hD3]
  simp

theorem seasonBranches_sTight (D : List Char) (hD1 : D ≠ []) (hD2 : D.length ≤ 2)
    (hD3 : D.all isDigitChar = true) :
    seasonBranches ("S".toList ++ D) = true := by
  unfold seasonBranches
  have hp : lowerPrefix "s" ("S".toList ++ D) = true := by
    unfold lowerPrefix
    have h1 : List.take ("s".length) ("S".toList ++ D) = ['S'] := rfl
    rw [h1]
    decide
  have hdrop : ("S".toList ++ D).drop 1 = D := rfl
  rw [hp, hdrop, seasonKwTail_digits D hD1 hD2 hD3]
  simp

theorem stripSeasonCore_cut : ∀ (C acc rest : List Char),
    (∀ i, i < C.length → seasonSuffixFrom (C.drop i ++ rest) = false) →
    seasonSuffixFrom rest = true →
    stripSeasonCore acc (C ++ rest) = acc.reverse ++ C := by
  intro C
  induction C with
  | nil =>
    intro acc rest _ htrue
    rcases rest with _ | ⟨a, l⟩
    · cases htrue
    · show stripSeasonCore acc (a :: l) = acc.reverse ++ []
      unfold stripSeasonCore
      rw [htrue]
      simp
  | cons c C1 ih =>
    intro acc rest hfalse htrue
    have h0 : seasonSuffixFrom ((c :: C1) ++ rest) = false := by
      have := hfalse 0 (by simp)
      simpa using this
    show stripSeasonCore acc (c :: (C1 ++ rest)) = acc.reverse ++ (c :: C1)
    unfold stripSeasonCore
    have h0' : seasonSuffixFrom (c :: (C1 ++ rest)) = false := h0
    rw [h0']
    simp only [Bool.false_eq_true, if_false]
    rw [ih (c :: acc) rest (fun i hi => by
      have := hfalse (i + 1) (by simp; omega)
      simpa using this) htrue]
    simp

theorem stripSeasonCore_nocut : ∀ (X acc : List Char),
    (∀ i, i < X.length → seasonSuffixFrom (X.drop i) = false) →
    stripSeasonCore acc X = acc.reverse ++ X := by
  intro X
  induction X with
  | nil => intro acc _; simp [stripSeasonCore]
  | cons c X1 ih =>
    intro acc hfalse
    have h0 : seasonSuffixFrom (c :: X1) = false := by
      have := hfalse 0 (by simp)
      simpa using this
    unfold stripSeasonCore
    rw [h0]
    simp only [Bool.false_eq_true, if_false]
    rw [ih (c :: acc) (fun i hi => by
      have := hfalse (i + 1) (by simp; omega)
      simpa using this)]
    simp

theorem rstrip_id {X : List Char} {c : Char} (h : X.getLast? = some c)
    (hc : isSpaceChar c = false) :
    (X.reverse.dropWhile isSpaceChar).reverse = X := by
  have hrev : X.reverse.head? = some c := by rw [List.head?_reverse, h]
  cases hx : X.reverse with
  | nil => rw [hx] at hrev; cases hrev
  | cons a t =>
    rw [hx] at hrev
    have ha : a = c := by simpa using hrev
    subst ha
    rw [List.dropWhile_cons, hc]
    simp only [Bool.false_eq_true, if_false]
    have hback : (a :: t).reverse = X := by
      rw [← hx, List.reverse_reverse]
    exact hback

theorem getLast?_drop_eq {X : List Char} {i : Nat} (h : X.drop i ≠ []) :
    (X.drop i).getLast? = X.getLast? := by
  conv_rhs => rw [← List.take_append_drop i X]
  exact (List.getLast?_append_of_ne_nil _ h).symm

theorem seasonSuffixFrom_false_of_last_nondigit {Y : List Char} {c : Char}
    (hlast : Y.getLast? = some c) (hdg : isDigitChar c = false) :
    seasonSuffixFrom Y = false := by
  rcases Y with _ | ⟨a, t⟩
  · rfl
  · rw [seasonSuffixFrom_cons]
    by_cases hsp : isSpaceChar a = true
    · rw [hsp]
      simp only [Bool.true_and]
      unfold seasonBranches
      have hrsub : ∀ k : Nat,
          seasonKwTail (((a :: t).dropWhile isSpaceChar).drop k) = false := by
        intro k
        apply seasonKwTail_false_of_last
        intro c' hc'
        have hne : ((a :: t).dropWhile isSpaceChar).drop k ≠ [] := by
          intro hnil; rw [hnil] at hc'; cases hc'
        have hdne : (a :: t).dropWhile isSpaceChar ≠ [] := by
          intro hnil
          rw [hnil] at hne
          exact hne (List.drop_nil)
        have h1 : (((a :: t).dropWhile isSpaceChar).drop k).getLast?
            = ((a :: t).dropWhile isSpaceChar).getLast? := getLast?_drop_eq hne
        have happ := List.getLast?_append_of_ne_nil ((a :: t).takeWhile isSpaceChar) hdne
        rw [List.takeWhile_append_dropWhile] at happ
        rw [h1, ← happ, hlast] at hc'
        have hcc : c = c' := by simpa using hc'
        rw [← hcc]
        exact hdg
      rw [hrsub 6, hrsub 1]
      simp
    · simp only [Bool.not_eq_true] at hsp
      rw [hsp]
      simp

theorem pyStrip_eq_of_last {l : List Char} {c : Char} (h : l.getLast? = some c)
    (hc : isSpaceChar c = false) : pyStrip l = l.dropWhile isSpaceChar := by
  unfold pyStrip
  have hdne : l.dropWhile isSpaceChar ≠ [] := by
    intro hnil
    have hcd := mem_dropWhile_of_not (getLastSomeMem h) hc
    rw [hnil] at hcd
    cases hcd
  have happ := List.getLast?_append_of_ne_nil (l.takeWhile isSpaceChar) hdne
  rw [List.takeWhile_append_dropWhile] at happ
  have hlast2 : (l.dropWhile isSpaceChar).getLast? = some c := by
    rw [← happ]
    exact h
  exact rstrip_id hlast2 hc

theorem revGetLast (x : List Char) : x.reverse.getLast? = x.head? := by
  rw [← List.head?_reverse, List.reverse_reverse]

theorem display_title_strip_token (b : String) (tokNS : List Char)
    (hb : b.toList.any (fun c => !isSpaceChar c) = true)
    (hS : 'S' ∈ tokNS)
    (hhead : tokNS.head?.any (fun c => !isSpaceChar c) = true)
    (hlastd : ∃ d, tokNS.getLast? = some d ∧ isDigitChar d = true)
    (hbr : seasonBranches tokNS = true) :
    _display_title (String.mk (b.toList ++ (' ' :: tokNS))) = String.mk (pyStrip b.toList) := by
  rcases hlastd with ⟨d, hd, hddig⟩
  have htokne : tokNS ≠ [] := by intro hnil; rw [hnil] at hd; cases hd
  rcases List.any_eq_true.mp hb with ⟨c0, hc0mem, hc0⟩
  have hc0sp : isSpaceChar c0 = false := by simpa using hc0
  have hBne : b.toList.dropWhile isSpaceChar ≠ [] :=
    List.ne_nil_of_mem (mem_dropWhile_of_not hc0mem hc0sp)
  have hfull_last : (b.toList ++ (' ' :: tokNS)).getLast? = some d := by
    have h1 : (b.toList ++ (' ' :: tokNS)).getLast? = (' ' :: tokNS).getLast? :=
      List.getLast?_append_of_ne_nil _ (by simp)
    have h2 : (' ' :: tokNS).getLast? = tokNS.getLast? := by
      show ([' '] ++ tokNS).getLast? = tokNS.getLast?
      exact List.getLast?_append_of_ne_nil _ htokne
    rw [h1, h2, hd]
  have hps : pyStrip (b.toList ++ (' ' :: tokNS))
      = (b.toList.dropWhile isSpaceChar) ++ (' ' :: tokNS) := by
    rw [pyStrip_eq_of_last hfull_last (not_space_of_digit hddig)]
    exact dropWhile_append_of_ne_nil _ _ hBne
  rcases hC : ((b.toList.dropWhile isSpaceChar).reverse.dropWhile isSpaceChar) with _ | ⟨a, u⟩
  · exfalso
    rcases hBeq : b.toList.dropWhile isSpaceChar with _ | ⟨bh, bt⟩
    · exact hBne hBeq
    · have hbh : isSpaceChar bh = false := dropWhile_head_false hBeq
      have hmem : bh ∈ (b.toList.dropWhile isSpaceChar).reverse := by
        rw [hBeq]; simp
      have hmem2 := mem_dropWhile_of_not hmem hbh
      rw [hC] at hmem2
      cases hmem2
  · have hasp : isSpaceChar a = false := dropWhile_head_false hC
    have hClast : ((a :: u).reverse).getLast? = some a := by
      rw [revGetLast]; rfl
    have hBCS : b.toList.dropWhile isSpaceChar
        = (a :: u).reverse
          ++ ((b.toList.dropWhile isSpaceChar).reverse.takeWhile isSpaceChar).reverse := by
      conv_lhs => rw [← List.reverse_reverse (b.toList.dropWhile isSpaceChar),
        ← List.takeWhile_append_dropWhile isSpaceChar (b.toList.dropWhile isSpaceChar).reverse]
      rw [List.reverse_append, hC]
    have hSsp : (((b.toList.dropWhile isSpaceChar).reverse.takeWhile isSpaceChar).reverse.all
        isSpaceChar) = true := by
      apply List.all_eq_true.mpr
      intro x hx
      rw [List.mem_reverse] at hx
      exact List.mem_takeWhile_imp hx
    have hW : ((((b.toList.dropWhile isSpaceChar).reverse.takeWhile isSpaceChar).reverse
        ++ [' ']).all isSpaceChar) = true := by
      rw [List.all_append, hSsp]
      decide
    have hWne : (((b.toList.dropWhile isSpaceChar).reverse.takeWhile isSpaceChar).reverse
        ++ [' ']) ≠ [] := by simp
    have htrue : seasonSuffixFrom
        ((((b.toList.dropWhile isSpaceChar).reverse.takeWhile isSpaceChar).reverse ++ [' '])
          ++ tokNS) = true :=
      seasonSuffixFrom_match_gen _ tokNS hWne hW hhead hbr
    have hfalse : ∀ i, i < ((a :: u).reverse).length →
        seasonSuffixFrom (((a :: u).reverse).drop i
          ++ ((((b.toList.dropWhile isSpaceChar).reverse.takeWhile isSpaceChar).reverse ++ [' '])
            ++ tokNS)) = false := by
      intro i hi
      have hdropne : ((a :: u).reverse).drop i ≠ [] := by
        intro hnil
        have hle := List.drop_eq_nil_iff.mp hnil
        omega
      have hdl : (((a :: u).reverse).drop i).getLast? = some a := by
        rw [getLast?_drop_eq hdropne, hClast]
      exact seasonSuffixFrom_false_of_root _ _ _ hdl hasp hW hWne hS
    unfold _display_title
    have hlist : (String.mk (b.toList ++ (' ' :: tokNS))).toList = b.toList ++ (' ' :: tokNS) := rfl
    rw [hlist, hps, hBCS]
    have hassoc : (((a :: u).reverse
          ++ ((b.toList.dropWhile isSpaceChar).reverse.takeWhile isSpaceChar).reverse)
          ++ (' ' :: tokNS))
        = (a :: u).reverse
          ++ ((((b.toList.dropWhile isSpaceChar).reverse.takeWhile isSpaceChar).reverse ++ [' '])
            ++ tokNS) := by
      rw [List.append_assoc, List.append_assoc]
      rfl
    rw [hassoc]
    rw [stripSeasonCore_cut ((a :: u).reverse) []
      ((((b.toList.dropWhile isSpaceChar).reverse.takeWhile isSpaceChar).reverse ++ [' '])
        ++ tokNS) hfalse htrue]
    have hpyb : pyStrip b.toList = (a :: u).reverse := by
      unfold pyStrip
      rw [hC]
    rw [hpyb]
    simp

theorem strcat_token (b : String) (lit : String) (D : List Char) :
    b ++ lit ++ String.mk D = String.mk (b.toList ++ (lit.toList ++ D)) := by
  apply String.ext
  rw [String.data_append, String.data_append, List.append_assoc]
  rfl

theorem display_title_seasonN (b : String) (D : List Char)
    (hb : b.toList.any (fun c => !isSpaceChar c) = true)
    (hD1 : D ≠ []) (hD2 : D.length ≤ 2) (hD3 : D.all isDigitChar = true) :
    _display_title (b ++ " Season " ++ String.mk D) = String.mk (pyStrip b.toList) := by
  have hlastd : ∃ d, ("Season ".toList ++ D).getLast? = some d ∧ isDigitChar d = true := by
    rcases D.eq_nil_or_concat with h | ⟨D', d, rfl⟩
    · exact absurd h hD1
    · refine ⟨d, ?_, ?_⟩
      · rw [List.concat_eq_append, ← List.append_assoc, List.getLast?_concat]
      · exact List.all_eq_true.mp hD3 d (by simp [List.concat_eq_append])
  rw [strcat_token]
  exact display_title_strip_token b ("Season ".toList ++ D) hb
    (List.mem_append_left _ (by decide)) rfl hlastd
    (seasonBranches_season D hD1 hD2 hD3)

theorem display_title_sSpaceN (b : String) (D : List Char)
    (hb : b.toList.any (fun c => !isSpaceChar c) = true)
    (hD1 : D ≠ []) (hD2 : D.length ≤ 2) (hD3 : D.all isDigitChar = true) :
    _display_title (b ++ " S " ++ String.mk D) = String.mk (pyStrip b.toList) := by
  have hlastd : ∃ d, ("S ".toList ++ D).getLast? = some d ∧ isDigitChar d = true := by
    rcases D.eq_nil_or_concat with h | ⟨D', d, rfl⟩
    · exact absurd h hD1
    · refine ⟨d, ?_, ?_⟩
      · rw [List.concat_eq_append, ← List.append_assoc, List.getLast?_concat]
      · exact List.all_eq_true.mp hD3 d (by simp [List.concat_eq_append])
  rw [strcat_token]
  exact display_title_strip_token b ("S ".toList ++ D) hb
    (List.mem_append_left _ (by decide)) rfl hlastd
    (seasonBranches_sSpace D hD1 hD2 hD3)

theorem display_title_sTightN (b : String) (D : List Char)
    (hb : b.toList.any (fun c => !isSpaceChar c) = true)
    (hD1 : D ≠ []) (hD2 : D.length ≤ 2) (hD3 : D.all isDigitChar = true) :
    _display_title (b ++ " S" ++ String.mk D) = String.mk (pyStrip b.toList) := by
  have hlastd : ∃ d, ("S".toList ++ D).getLast? = some d ∧ isDigitChar d = true := by
    rcases D.eq_nil_or_concat with h | ⟨D', d, rfl⟩
    · exact absurd h hD1
    · refine ⟨d, ?_, ?_⟩
      · rw [List.concat_eq_append, ← List.append_assoc, List.getLast?_concat]
      · exact List.all_eq_true.mp hD3 d (by simp [List.concat_eq_append])
  rw [strcat_token]
  exact display_title_strip_token b ("S".toList ++ D) hb
    (List.mem_append_left _ (by decide)) rfl hlastd
    (seasonBranches_sTight D hD1 hD2 hD3)

theorem display_title_keeps_nondigit_tail (s : String) (c : Char)
    (hlast : s.toList.getLast? = some c)
    (hsp : isSpaceChar c = false) (hdg : isDigitChar c = false) :
    _display_title s = String.mk (pyStrip s.toList) := by
  have hps := pyStrip_eq_of_last hlast hsp
  have hcm : c ∈ s.toList := getLastSomeMem hlast
  have hYne : s.toList.dropWhile isSpaceChar ≠ [] :=
    List.ne_nil_of_mem (mem_dropWhile_of_not hcm hsp)
  have hYlast : (s.toList.dropWhile isSpaceChar).getLast? = some c := by
    have happ := List.getLast?_append_of_ne_nil (s.toList.takeWhile isSpaceChar) hYne
    rw [List.takeWhile_append_dropWhile] at happ
    rw [← happ, hlast]
  have hfalse : ∀ i, i < (s.toList.dropWhile isSpaceChar).length →
      seasonSuffixFrom ((s.toList.dropWhile isSpaceChar).drop i) = false := by
    intro i hi
    have hdropne : (s.toList.dropWhile isSpaceChar).drop i ≠ [] := by
      intro hnil
      have hle := List.drop_eq_nil_iff.mp hnil
      omega
    have hdl : ((s.toList.dropWhile isSpaceChar).drop i).getLast? = some c := by
      rw [getLast?_drop_eq hdropne, hYlast]
    exact seasonSuffixFrom_false_of_last_nondigit hdl hdg
  unfold _display_title
  rw [hps, stripSeasonCore_nocut _ [] hfalse]
  simp

/-- C8 (amended, universal): for every non-blank title base `b` and every
one- or two-digit numeral `D`, `_display_title` maps `b ++ " Season " ++ D`,
`b ++ " S " ++ D` and `b ++ " S" ++ D` to `b` stripped of surrounding
whitespace, while every title whose last character is the CJK `季` or `期` is
returned with only its surrounding whitespace trimmed, so the `第N季`/`第N期`
season forms are never stripped. -/
theorem C8_display_title_amended :
    (∀ (b : String) (D : List Char),
        b.toList.any (fun c => !isSpaceChar c) = true →
        D ≠ [] → D.length ≤ 2 → D.all isDigitChar = true →
        _display_title (b ++ " Season " ++ String.mk D) = String.mk (pyStrip b.toList)
        ∧ _display_title (b ++ " S " ++ String.mk D) = String.mk (pyStrip b.toList)
        ∧ _display_title (b ++ " S" ++ String.mk D) = String.mk (pyStrip b.toList))
    ∧ (∀ (s : String) (c : Char), s.toList.getLast? = some c → (c = '季' ∨ c = '期') →
        _display_title s = String.mk (pyStrip s.toList))
    ∧ _display_title "X Season 3" = "X"
    ∧ _display_title "X 第3季" = "X 第3季" := by
  refine ⟨?_, ?_, by decide, by decide⟩
  · intro b D hb hD1 hD2 hD3
    exact ⟨display_title_seasonN b D hb hD1 hD2 hD3,
      display_title_sSpaceN b D hb hD1 hD2 hD3,
      display_title_sTightN b D hb hD1 hD2 hD3⟩
  · intro s c hlast hck
    rcases hck with rfl | rfl
    · exact display_title_keeps_nondigit_tail s _ hlast (by decide) (by decide)
    · exact display_title_keeps_nondigit_tail s _ hlast (by decide) (by decide)

/-- C8 witness: the amended theorem applied at a concrete Latin-form title
and a concrete CJK-form title. -/
theorem C8_witness :
    _display_title ("Flying Witch" ++ " Season " ++ String.mk ['2'])
      = String.mk (pyStrip "Flying Witch".toList)
    ∧ _display_title "Y 第2期" = String.mk (pyStrip "Y 第2期".toList) :=
  ⟨(C8_display_title_amended.1 "Flying Witch" ['2'] (by decide) (by decide) (by decide)
      (by decide)).1,
    C8_display_title_amended.2.1 "Y 第2期" '期' (by decide) (Or.inr rfl)⟩

theorem lookupAssoc_mem {α : Type} {l : List (String × α)} {k : String} {v : α}
    (h : lookupAssoc l k = some v) : ∃ p ∈ l, p.2 = v := by
  unfold lookupAssoc at h
  cases hf : l.find? (fun p => p.1 == k) with
  | none => rw [hf] at h; cases h
  | some p =>
    rw [hf] at h
    simp at h
    exact ⟨p, List.mem_of_find?_eq_some hf, h⟩

theorem check_ok_iff (M : Manifest) (season ep : Nat) (fileMd5 : String)
    (wf1 : ∀ p ∈ M.hash_index, p.2 ≠ "")
    (wf2 : ∀ p ∈ M.episodes, p.2.md5 ≠ some "") :
    ((check_mapping_consistency M season ep fileMd5).ok = false ↔
      (∃ k, lookupAssoc M.hash_index fileMd5 = some k ∧ k ≠ episode_key season ep) ∨
      (∃ e m, lookupAssoc M.episodes (episode_key season ep) = some e ∧ e.md5 = some m ∧
        m ≠ fileMd5)) := by
  unfold check_mapping_consistency
  cases h1 : lookupAssoc M.hash_index fileMd5 with
  | none =>
    cases h2 : lookupAssoc M.episodes (episode_key season ep) with
    | none => simp [h2]
    | some e =>
      cases h3 : e.md5 with
      | none => simp [h2, h3]
      | some old =>
        have hone : old ≠ "" := by
          rcases lookupAssoc_mem h2 with ⟨p, hp, hpe⟩
          intro hcon
          exact wf2 p hp (by rw [hpe, h3, hcon])
        by_cases hm : old = fileMd5
        · simp [h2, h3, hm]
        · simp [h2, h3, hm, hone]
  | some idx =>
    have hkne : idx ≠ "" := by
      rcases lookupAssoc_mem h1 with ⟨p, hp, hpe⟩
      exact hpe ▸ wf1 p hp
    cases h2 : lookupAssoc M.episodes (episode_key season ep) with
    | none =>
      by_cases hk : idx = episode_key season ep
      · simp [h2, hk]
      · simp [h2, hk, hkne]
    | some e =>
      cases h3 : e.md5 with
      | none =>
        by_cases hk : idx = episode_key season ep
        · simp [h2, h3, hk]
        · simp [h2, h3, hk, hkne]
      | some old =>
        have hone : old ≠ "" := by
          rcases lookupAssoc_mem h2 with ⟨p, hp, hpe⟩
          intro hcon
          exact wf2 p hp (by rw [hpe, h3, hcon])
        by_cases hk : idx = episode_key season ep
        · by_cases hm : old = fileMd5
          · simp [h2, h3, hk, hm]
          · simp [h2, h3, hk, hm, hone]
        · by_cases hm : old = fileMd5
          · simp [h2, h3, hk, hkne, hm]
          · simp [h2, h3, hk, hkne, hm, hone]

theorem check_conflict_reason (M : Manifest) (season ep : Nat) (fileMd5 : String)
    (wf1 : ∀ p ∈ M.hash_index, p.2 ≠ "") :
    ∀ k, lookupAssoc M.hash_index fileMd5 = some k → k ≠ episode_key season ep →
      ("hash_conflicts_with_" ++ k) ∈ (check_mapping_consistency M season ep fileMd5).reasons := by
  intro k hk hne
  have hkne : k ≠ "" := by
    rcases lookupAssoc_mem hk with ⟨p, hp, hpe⟩
    exact hpe ▸ wf1 p hp
  unfold check_mapping_consistency
  rw [hk]
  simp [hkne, hne]

theorem reconcile_gate (M : Manifest) (season ep : Nat) (fileMd5 : String) :
    reconcileConfidentFile M season ep fileMd5 = ReconcileFileAction.organized →
      (check_mapping_consistency M season ep fileMd5).ok = true := by
  unfold reconcileConfidentFile
  split
  · intro _; assumption
  · intro h; exact absurd h (by decide)
/-- C6: manifest consistency — over manifests whose stored values are actual
episode keys and md5 digests (non-empty strings, the only values
`record_episode_hash` ever writes), the check fails iff the hash index maps
the md5 to a different episode key or the episode entry records a different
md5; a hash conflict is reported as `hash_conflicts_with_<previous key>`
(concretely, checking (S02, E02, m) against a manifest indexing m under
S02E01 fails with `hash_conflicts_with_S02E01`); and the reconciler organizes
a file only when the check passes. -/
theorem C6_manifest_consistency_check :
    (∀ (M : Manifest) (season ep : Nat) (fileMd5 : String),
      (∀ p ∈ M.hash_index, p.2 ≠ "") →
      (∀ p ∈ M.episodes, p.2.md5 ≠ some "") →
      (((check_mapping_consistency M season ep fileMd5).ok = false ↔
        (∃ k, lookupAssoc M.hash_index fileMd5 = some k ∧ k ≠ episode_key season ep) ∨
        (∃ e m, lookupAssoc M.episodes (episode_key season ep) = some e ∧ e.md5 = some m ∧
          m ≠ fileMd5))
      ∧ (∀ k, lookupAssoc M.hash_index fileMd5 = some k → k ≠ episode_key season ep →
          ("hash_conflicts_with_" ++ k) ∈ (check_mapping_consistency M season ep fileMd5).reasons)
      ∧ (reconcileConfidentFile M season ep fileMd5 = ReconcileFileAction.organized →
          (check_mapping_consistency M season ep fileMd5).ok = true)))
    ∧ check_mapping_consistency ⟨[("S02E01", ⟨some "m"⟩)], [("m", "S02E01")]⟩ 2 2 "m"
        = ⟨false, ["hash_conflicts_with_S02E01"]⟩ := by
  constructor
  · intro M season ep fileMd5 wf1 wf2
    exact ⟨check_ok_iff M season ep fileMd5 wf1 wf2,
      check_conflict_reason M season ep fileMd5 wf1,
      reconcile_gate M season ep fileMd5⟩
  · decide

/-- Concrete instantiation of `C6_manifest_consistency_check` at the
S02E01/S02E02 conflict manifest. -/
theorem C6_witness :
    (check_mapping_consistency ⟨[("S02E01", ⟨some "m"⟩)], [("m", "S02E01")]⟩ 2 2 "m").ok
      = false :=
  ((C6_manifest_consistency_check.1 ⟨[("S02E01", ⟨some "m"⟩)], [("m", "S02E01")]⟩ 2 2 "m"
      (by decide) (by decide)).1).mpr (Or.inl ⟨"S02E01", by decide, by decide⟩)

/-- C7 counterexample: a show with `total_eps = 0` (non-null), zero downloads
(count `0 ≥ total_eps`) and an empty wanted set is *not* skipped — the Python
truthiness of `0` defeats the `is_complete` test — so the pipeline performs
an RSS fetch for it, contradicting the claim's "zero RSS fetches". -/
theorem C7_short_circuit_counterexample :
    pollShowRun false 0 ⟨1, "C", "C", none, "airing", some 0, 0⟩ [] = ⟨1, 0, 0⟩
    ∧ (⟨1, "C", "C", none, "airing", some 0, 0⟩ : ShowRec).total_eps = some 0
    ∧ downloadedEpsOf [] = []
    ∧ wantedEpsOf [] (downloadedEpsOf []) = [] := by
  refine ⟨by decide, rfl, by decide, by decide⟩

/-- C7 (amended: `total_eps` non-null **and positive**): a show whose
downloaded count reaches its positive `total_eps` and whose wanted set is
empty is skipped before any fetch: zero RSS fetches, zero fallback-API
fetches, and zero Release rows (`added = 0`). -/
theorem C7_complete_show_short_circuit_amended :
    ∀ (api : Bool) (addedSel : Nat) (sh : ShowRec) (rows : List EpisodeRow) (t : Int),
      sh.total_eps = some t → 0 < t →
      t ≤ ((downloadedEpsOf rows).length : Int) →
      wantedEpsOf rows (downloadedEpsOf rows) = [] →
      pollShowRun api addedSel sh rows = ⟨0, 0, 0⟩ := by
  intro api addedSel sh rows t ht htpos hcount hwanted
  have hdl : (downloadedEpsOf rows).isEmpty = false := by
    cases hd : downloadedEpsOf rows with
    | nil =>
      exfalso
      rw [hd] at hcount
      simp at hcount
      omega
    | cons a l => rfl
  have hskip : pollShowSkips sh rows = true := by
    unfold pollShowSkips
    rw [hwanted]
    have hboot : bootstrapWanted sh (downloadedEpsOf rows) [] = [] := by
      unfold bootstrapWanted
      simp [hdl]
    rw [hboot]
    have hcomp : isCompleteShow sh (downloadedEpsOf rows) = true := by
      unfold isCompleteShow
      simp [truthyOptInt, ht]
      constructor
      · omega
      · exact hcount
    simp [hcomp]
  unfold pollShowRun
  rw [hskip]
  simp

/-- Concrete instantiation of `C7_complete_show_short_circuit_amended`: a
fully downloaded two-episode show is skipped. -/
theorem C7_witness :
    pollShowRun true 7 ⟨1, "C", "C", none, "airing", some 2, 0⟩
      [⟨1, EpState.downloaded⟩, ⟨2, EpState.downloaded⟩] = ⟨0, 0, 0⟩ :=
  C7_complete_show_short_circuit_amended true 7 ⟨1, "C", "C", none, "airing", some 2, 0⟩
    [⟨1, EpState.downloaded⟩, ⟨2, EpState.downloaded⟩] 2 rfl (by decide) (by decide) (by decide)
theorem stringAppend_assoc (a b c : String) : a ++ b ++ c = a ++ (b ++ c) := by
  apply String.ext
  simp [String.data_append, List.append_assoc]

theorem watchdogMsg_mentions (t : Int) :
    watchdogMsg t = "job watchdog timeout" ++ (" after " ++ (toString t ++ "s")) := by
  unfold watchdogMsg
  have h0 : ("job watchdog timeout after " : String) = "job watchdog timeout" ++ " after " := by
    decide
  rw [h0]
  rw [stringAppend_assoc, stringAppend_assoc]

/-- C9 (amended: `started_at` and `timeout_sec` are set **to non-zero
values** — `0` is Python-falsy and disables the watchdog): `get` on a running
job more than `timeout_sec + 5` seconds after `started_at` returns it
force-failed with an error mentioning "job watchdog timeout"; consequently
such a job is never observed as running past that deadline. -/
theorem C9_job_watchdog_amended :
    ∀ (j : Job) (now s t : Int),
      j.status = JobStatus.running → j.started_at = some s → s ≠ 0 →
      j.timeout_sec = some t → t ≠ 0 → t + 5 < now - s →
      (jobGet j now).status = JobStatus.failed
      ∧ (∃ rest, (jobGet j now).error = some ("job watchdog timeout" ++ rest))
      ∧ (jobGet j now).status ≠ JobStatus.running := by
  intro j now s t hst hsa hs0 hts ht0 helapsed
  have hcond : (j.status == JobStatus.running && (j.started_at.getD 0 != 0) &&
      (j.timeout_sec.getD 0 != 0) &&
      decide (j.timeout_sec.getD 0 + 5 < now - j.started_at.getD 0)) = true := by
    simp [hst, hsa, hts, hs0, ht0]
    exact helapsed
  have hif : jobGet j now =
      { j with
          status := JobStatus.failed,
          error := some (watchdogMsg (j.timeout_sec.getD 0)),
          finished_at := some now } := by
    unfold jobGet
    rw [hcond]
    simp
  rw [hif]
  refine ⟨rfl, ⟨" after " ++ (toString t ++ "s"), ?_⟩, by simp⟩
  simp only [hts, Option.getD_some]
  rw [watchdogMsg_mentions]

/-- Concrete instantiation of `C9_job_watchdog_amended`: an 80-second job
started at time 10 and observed at time 200. -/
theorem C9_witness :
    (jobGet ⟨JobStatus.running, some 10, some 80, none, none⟩ 200).status = JobStatus.failed
    ∧ (∃ rest, (jobGet ⟨JobStatus.running, some 10, some 80, none, none⟩ 200).error
        = some ("job watchdog timeout" ++ rest))
    ∧ (jobGet ⟨JobStatus.running, some 10, some 80, none, none⟩ 200).status
        ≠ JobStatus.running :=
  C9_job_watchdog_amended ⟨JobStatus.running, some 10, some 80, none, none⟩ 200 10 80
    rfl rfl (by decide) rfl (by decide) (by decide)

/-- C9 counterexample: the claim only requires `started_at` and `timeout_sec`
to be *set*, but the source tests them for Python truthiness: a running job
with `timeout_sec = 0` (first conjunct) or `started_at = 0` (second) is
returned still `running` far past the claimed deadline, so `get` does not
force-fail it. -/
theorem C9_watchdog_counterexample :
    (jobGet ⟨JobStatus.running, some 10, some 0, none, none⟩ 100).status = JobStatus.running
    ∧ (jobGet ⟨JobStatus.running, some 0, some 80, none, none⟩ 1000).status
        = JobStatus.running := by
  refine ⟨by decide, by decide⟩

/-- C10 (amended: the canonical title resolves to `canonical_title` only when
it is given **and non-empty**, Python `or` semantics): a `POST /api/shows`
whose resolved canonical title matches an existing show's `title_canonical`
changes nothing — no new Show row, every field of the database untouched, a
supplied `total_eps` ignored — and answers `{ok: true, show_id: <existing>,
dedup: true}`. -/
theorem C10_duplicate_intake_amended :
    ∀ (db : List ShowRec) (nextId : Nat) (p : AddShowPayload) (e : ShowRec),
      db.find? (fun s => s.title_canonical == addShowCanonical p) = some e →
      add_show db nextId p = (db, ⟨true, e.id, some true⟩) := by
  intro db nextId p e h
  unfold add_show
  rw [h]

/-- Concrete instantiation of `C10_duplicate_intake_amended`: re-adding show
"A" with a payload that supplies `total_eps = 24` leaves the stored
`total_eps = 3` (and everything else) unchanged and reports the dedup. -/
theorem C10_witness :
    add_show [⟨1, "A", "A", none, "airing", some 3, 0⟩] 2 ⟨"A input", some "A", some 24⟩
      = ([⟨1, "A", "A", none, "airing", some 3, 0⟩], ⟨true, 1, some true⟩) :=
  C10_duplicate_intake_amended [⟨1, "A", "A", none, "airing", some 3, 0⟩] 2
    ⟨"A input", some "A", some 24⟩ ⟨1, "A", "A", none, "airing", some 3, 0⟩ (by decide)

/-- C10 counterexample: with `canonical_title = ""` (given) and an existing
show whose `title_canonical` is `""`, the claim's resolution picks `""` and
demands a dedup no-op; but Python's `payload.canonical_title or payload.title`
treats the empty string as absent, resolves to the title `"X"`, and the
handler inserts a second Show row with `dedup` absent from the response. -/
theorem C10_duplicate_intake_counterexample :
    (add_show [⟨1, "", "", none, "airing", none, 0⟩] 2 ⟨"X", some "", none⟩).1.length = 2
    ∧ (add_show [⟨1, "", "", none, "airing", none, 0⟩] 2 ⟨"X", some "", none⟩).2.dedup = none
    ∧ (⟨1, "", "", none, "airing", none, 0⟩ : ShowRec).title_canonical = ""
    ∧ (⟨"X", some "", none⟩ : AddShowPayload).canonical_title = some "" := by
  refine ⟨by decide, by decide, rfl, rfl⟩
theorem tryEnqueue_cases (O : PipelineOracle) (showId maxAttempts epNo : Nat) (s : Int)
    (cand : RssCandidate) (st : EnqueueState) :
    ((tryEnqueue O showId maxAttempts epNo s cand st).2 = false
      ∧ (tryEnqueue O showId maxAttempts epNo s cand st).1.added = st.added
      ∧ (tryEnqueue O showId maxAttempts epNo s cand st).1.releases = st.releases) ∨
    ((tryEnqueue O showId maxAttempts epNo s cand st).2 = true
      ∧ (tryEnqueue O showId maxAttempts epNo s cand st).1.added = st.added + 1
      ∧ (tryEnqueue O showId maxAttempts epNo s cand st).1.releases.length
          = st.releases.length + 1) := by
  unfold tryEnqueue
  split
  · exact Or.inl ⟨rfl, rfl, rfl⟩
  · split
    · exact Or.inl ⟨rfl, rfl, rfl⟩
    · split
      · exact Or.inl ⟨rfl, rfl, rfl⟩
      · split
        · refine Or.inr ⟨rfl, rfl, ?_⟩
          simp
        · exact Or.inl ⟨rfl, rfl, rfl⟩

theorem passOneInner_spec (O : PipelineOracle) (showId maxAttempts : Nat) (minScore : Int)
    (targetEp : Nat) :
    ∀ (cands : List (Int × RssCandidate)) (st : EnqueueState),
      (passOneInner O showId maxAttempts minScore targetEp cands st).added ≤ st.added + 1
      ∧ (passOneInner O showId maxAttempts minScore targetEp cands st).releases.length + st.added
          = st.releases.length
            + (passOneInner O showId maxAttempts minScore targetEp cands st).added := by
  intro cands
  induction cands with
  | nil =>
    intro st
    simp only [passOneInner]
    exact ⟨Nat.le_succ _, trivial⟩
  | cons p rest ih =>
    intro st
    obtain ⟨s, c⟩ := p
    unfold passOneInner
    split
    · exact ih st
    · rcases tryEnqueue_cases O showId maxAttempts targetEp s c st with
        ⟨hb, ha, hr⟩ | ⟨hb, ha, hr⟩
      · rw [hb]
        simp only [Bool.false_eq_true, if_false]
        rcases ih (tryEnqueue O showId maxAttempts targetEp s c st).1 with ⟨ih1, ih2⟩
        rw [ha, hr] at *
        exact ⟨ih1, by omega⟩
      · rw [hb]
        simp only [if_true]
        constructor
        · omega
        · omega
theorem passOne_spec (O : PipelineOracle) (cap maxAttempts : Nat) (minScore : Int)
    (showId : Nat) (byEp : Nat → List (Int × RssCandidate)) (epsWithRelease : List Nat) :
    ∀ (wanted : List Nat) (st : EnqueueState), st.added ≤ cap →
      (passOne O cap maxAttempts minScore showId byEp epsWithRelease wanted st).added ≤ cap
      ∧ (passOne O cap maxAttempts minScore showId byEp epsWithRelease wanted st).releases.length
            + st.added
          = st.releases.length
            + (passOne O cap maxAttempts minScore showId byEp epsWithRelease wanted st).added := by
  intro wanted
  induction wanted with
  | nil =>
    intro st h
    simp only [passOne]
    exact ⟨h, trivial⟩
  | cons t rest ih =>
    intro st h
    unfold passOne
    split
    · exact ⟨h, rfl⟩
    · split
      · exact ⟨h, rfl⟩
      · split
        · exact ⟨h, rfl⟩
        · split
          · rcases ih (tickState st) h with ⟨ih1, ih2⟩
            exact ⟨ih1, ih2⟩
          · rename_i hcap _ _ _
            have hlt : st.added < cap := Nat.lt_of_not_le hcap
            rcases passOneInner_spec O showId maxAttempts minScore t
                ((byEp t).take 2) (tickState st) with ⟨hi1, hi2⟩
            have hinner : (passOneInner O showId maxAttempts minScore t
                ((byEp t).take 2) (tickState st)).added ≤ cap := by
              have : (tickState st).added = st.added := rfl
              omega
            rcases ih (passOneInner O showId maxAttempts minScore t
                ((byEp t).take 2) (tickState st)) hinner with ⟨ihh1, ihh2⟩
            refine ⟨ihh1, ?_⟩
            have ht : (tickState st).added = st.added := rfl
            have htr : (tickState st).releases = st.releases := rfl
            rw [ht, htr] at hi2
            omega

theorem passTwo_spec (O : PipelineOracle) (cap maxAttempts : Nat) (minScore : Int)
    (showId : Nat) (wanted : List Nat) (nextEp : Nat) :
    ∀ (ranked : List (Int × Nat × RssCandidate)) (st : EnqueueState), st.added ≤ cap →
      (passTwo O cap maxAttempts minScore showId wanted nextEp ranked st).added ≤ cap
      ∧ (passTwo O cap maxAttempts minScore showId wanted nextEp ranked st).releases.length
            + st.added
          = st.releases.length
            + (passTwo O cap maxAttempts minScore showId wanted nextEp ranked st).added := by
  intro ranked
  induction ranked with
  | nil =>
    intro st h
    simp only [passTwo]
    exact ⟨h, trivial⟩
  | cons p rest ih =>
    intro st h
    obtain ⟨s, pe, c⟩ := p
    unfold passTwo
    split
    · exact ⟨h, rfl⟩
    · split
      · exact ⟨h, rfl⟩
      · split
        · exact ⟨h, rfl⟩
        · split
          · exact ih (tickState st) h
          · rename_i hcap _ _ _
            have hlt : st.added < cap := Nat.lt_of_not_le hcap
            rcases tryEnqueue_cases O showId maxAttempts
                (if pe != 0 then pe else wanted.headD nextEp) s c (tickState st) with
              ⟨_, ha, hr⟩ | ⟨_, ha, hr⟩
            · have hnext : (tryEnqueue O showId maxAttempts
                  (if pe != 0 then pe else wanted.headD nextEp) s c (tickState st)).1.added
                    ≤ cap := by
                have : (tickState st).added = st.added := rfl
                omega
              rcases ih _ hnext with ⟨ihh1, ihh2⟩
              refine ⟨ihh1, ?_⟩
              have ht : (tickState st).added = st.added := rfl
              have htr : (tickState st).releases = st.releases := rfl
              rw [ht] at ha
              rw [htr] at hr
              rw [ha, hr] at ihh2
              omega
            · have hnext : (tryEnqueue O showId maxAttempts
                  (if pe != 0 then pe else wanted.headD nextEp) s c (tickState st)).1.added
                    ≤ cap := by
                have : (tickState st).added = st.added := rfl
                omega
              rcases ih _ hnext with ⟨ihh1, ihh2⟩
              refine ⟨ihh1, ?_⟩
              have ht : (tickState st).added = st.added := rfl
              have htr : (tickState st).releases = st.releases := rfl
              rw [ht] at ha
              rw [htr] at hr
              rw [ha] at ihh2
              omega

/-- C4: Bounded enqueues — whatever the candidate pools, scores, oracle
outcomes and time budget, the selection/enqueue stage of one pipeline
invocation adds at most `max_add_per_show_per_cycle` Release rows for a show
(the setting defaults to 5). -/
theorem C4_bounded_enqueues :
    settings.max_add_per_show_per_cycle = 5
    ∧ ∀ (O : PipelineOracle) (cap : Nat) (minScore : Int) (showId : Nat)
        (downloaded : List Nat) (nextEp : Nat) (wanted : List Nat)
        (byEp : Nat → List (Int × RssCandidate)) (ranked : List (Int × Nat × RssCandidate))
        (existingRels : List ReleaseRow) (episodes : List EpisodeRow),
        (runSelection O cap minScore showId downloaded nextEp wanted byEp ranked
            existingRels episodes).added ≤ cap
        ∧ (runSelection O cap minScore showId downloaded nextEp wanted byEp ranked
            existingRels episodes).releases.length ≤ existingRels.length + cap := by
  refine ⟨rfl, ?_⟩
  intro O cap minScore showId downloaded nextEp wanted byEp ranked existingRels episodes
  unfold runSelection
  rcases passOne_spec O cap (max_enqueue_attempts cap) minScore showId byEp
      (existingRels.map (fun r => r.ep_no)) wanted
      ⟨existingRels, episodes, downloaded ++ existingRels.map (fun r => r.ep_no), 0, 0, 0⟩
      (Nat.zero_le cap) with ⟨h11, h12⟩
  rcases passTwo_spec O cap (max_enqueue_attempts cap) minScore showId wanted nextEp ranked
      (passOne O cap (max_enqueue_attempts cap) minScore showId byEp
        (existingRels.map (fun r => r.ep_no)) wanted
        ⟨existingRels, episodes, downloaded ++ existingRels.map (fun r => r.ep_no), 0, 0, 0⟩)
      h11 with ⟨h21, h22⟩
  refine ⟨h21, ?_⟩
  have e1 : (⟨existingRels, episodes, downloaded ++ existingRels.map (fun r => r.ep_no),
      0, 0, 0⟩ : EnqueueState).added = 0 := rfl
  have e2 : (⟨existingRels, episodes, downloaded ++ existingRels.map (fun r => r.ep_no),
      0, 0, 0⟩ : EnqueueState).releases = existingRels := rfl
  rw [e1, e2] at h12
  omega
end Luciola
